import Mathlib

/-!
# restpp: `http_process.cpp`

A shallow embedding of the request/response core of `src/http_process.cpp`
(class `http_request`) together with the properties of its callbacks, of the
header and query management, of `perform` and of the trace dump.

Conventions of the embedding.

* `std::string` is a list of characters (`Str`); byte payloads of the trace
  dump are lists of byte values (`Nat`).
* `size_t` values are natural numbers; a `size_t` operation of the source that
  can wrap is written with an explicit reduction modulo `2 ^ 64`.
* A string handed to the transfer library as `c_str()` is read up to its first
  NUL (`c_str`).
* `http_params` (a `std::map<std::string, std::string>`) is the list of its
  entries in iteration order, that is in ascending key order.
* The transfer library is not part of the repository.  The blocking exchange
  is a parameter of `perform`: a function from the configured handle to the
  transport result code, the callback invocations made during the exchange
  and the response code readable afterwards.
-/

namespace Restpp

/-! ## Strings and `size_t` -/

/-- A `std::string`: a sequence of characters. -/
abbrev Str := List Char

/-- Reduction of a natural number to the range of `size_t`. -/
def size_t (n : Nat) : Nat := n % 2 ^ 64

/-- The character `c` is white space (`std::isspace` in the "C" locale). -/
def is_space (c : Char) : Bool :=
  c = ' ' || c = '\t' || c = '\n' || c = '\r' || c = Char.ofNat 11 || c = Char.ofNat 12

/-- Modelled from the spec: the string-trim utility used by `header_callback`
is not in `http_process.cpp`; the spec calls it a utility that trims
surrounding whitespace.  Leading and trailing white space is removed, inner
white space is kept. -/
def trim (s : Str) : Str :=
  ((s.dropWhile is_space).reverse.dropWhile is_space).reverse

/-- The position of the first `':'` of `s`, as `std::string::find_first_of(":")`
returns it; `none` stands for `std::string::npos`. -/
def find_first_of_colon : Str → Option Nat
  | [] => none
  | c :: rest =>
    if c = ':' then some 0
    else match find_first_of_colon rest with
      | some n => some (n + 1)
      | none => none

/-! ## `http_params`: a `std::map<std::string, std::string>` -/

/-- The order of `std::string` keys: lexicographic, character by character. -/
def str_lt : Str → Str → Bool
  | [], [] => false
  | [], _ :: _ => true
  | _ :: _, [] => false
  | a :: as, b :: bs =>
    if a.toNat < b.toNat then true
    else if b.toNat < a.toNat then false
    else str_lt as bs

/-- Modelled from the spec: the type `http_params` is declared in a header that
is not part of the sources; the spec describes it as a mapping from string to
string with unique keys and last-write-wins.  It is modelled as `std::map`:
the list of entries in iteration order, which is ascending key order. -/
abbrev http_params := List (Str × Str)

/-- The assignment `m[key] = value` of `std::map`. -/
def map_assign (key value : Str) : http_params → http_params
  | [] => [(key, value)]
  | (k, v) :: rest =>
    if key = k then (key, value) :: rest
    else if str_lt key k then (key, value) :: (k, v) :: rest
    else (k, v) :: map_assign key value rest

/-- The lookup `m.find(key)` of `std::map`; `none` stands for `m.end()`. -/
def map_find (key : Str) : http_params → Option Str
  | [] => none
  | (k, v) :: rest => if key = k then some v else map_find key rest

/-- The removal `m.erase(key)` of `std::map`: every entry stored under `key`
is removed. -/
def map_erase (key : Str) (m : http_params) : http_params :=
  m.filter (fun e => !decide (e.1 = key))

/-- The entries of a well-formed map are in strictly ascending key order. -/
def map_wf (m : http_params) : Prop :=
  m.Pairwise (fun a b => str_lt a.1 b.1 = true)

/-! ## Response and upload cursor -/

/-- The response `http_res`: status code, headers and body. -/
structure http_res where
  code : Int := 0
  headers : http_params := []
  body : Str := []
deriving DecidableEq, Repr

/-- The upload cursor `http_upload_object`: `data` is the part of the body
the pointer still points at, `length` the number of bytes that remain. -/
structure http_upload_object where
  data : Str := []
  length : Nat := 0
deriving DecidableEq, Repr

/-! ## The callbacks -/

/-- The callback `http_request::write_callback`: appends the first
`size * nmemb` bytes of `data` to the body of the response; returns
`size * nmemb`. -/
def write_callback (data : Str) (size nmemb : Nat) (r : http_res) : Nat × http_res :=
  (size_t (size * nmemb), { r with body := r.body ++ data.take (size_t (size * nmemb)) })

/-- The callback `http_request::header_callback`: the received line is the
first `size * nmemb` bytes of `data`. -/
def header_callback (data : Str) (size nmemb : Nat) (r : http_res) : Nat × http_res :=
  let header := data.take (size_t (size * nmemb))
  match find_first_of_colon header with
  | none =>
    let header := trim header
    if header.length = 0 then
      (size_t (size * nmemb), r)
    else
      (size_t (size * nmemb), { r with headers := map_assign header "present".toList r.headers })
  | some seperator =>
    let key := trim (header.take seperator)
    let value := trim (header.drop (seperator + 1))
    (size_t (size * nmemb), { r with headers := map_assign key value r.headers })

/-- The callback `http_request::read_callback`: returns the number of bytes copied, the
bytes written to the buffer of the transport, and the advanced cursor.
`copy_size` is at most `u.length`, so `u->length -= copy_size` never wraps. -/
def read_callback (size nmemb : Nat) (u : http_upload_object) :
    Nat × Str × http_upload_object :=
  let curl_size := size_t (size * nmemb)
  let copy_size := if u.length < curl_size then u.length else curl_size
  (copy_size, u.data.take copy_size,
    { data := u.data.drop copy_size, length := u.length - copy_size })

/-! ## The request and its transport handle -/

/-- The methods `HTTP_METHOD` that `init_curl` accepts. -/
inductive HTTP_METHOD where
  | HTTP_METHOD_GET
  | HTTP_METHOD_PUT
  | HTTP_METHOD_POST
  | HTTP_METHOD_DELETE
  | HTTP_METHOD_HEAD
deriving DecidableEq, Repr

open HTTP_METHOD

/-- The options set on the easy handle `m_curl` with `curl_easy_setopt`; a
fresh handle has none set.  `writefunction`, `headerfunction`, `readfunction`
and `debugfunction` record that the callback of this file is attached. -/
structure curl_handle where
  put : Bool := false
  post : Bool := false
  customrequest : Option Str := none
  nobody : Bool := false
  url : Str := []
  writefunction : Bool := false
  headerfunction : Bool := false
  httpheader : List Str := []
  upload : Bool := false
  readfunction : Bool := false
  infilesize : Option Int := none
  postfields : Option Str := none
  postfieldsize : Option Nat := none
  debugfunction : Bool := false
  verbose : Bool := false
  timeout : Option Int := none
  nosignal : Bool := false
  followlocation : Bool := false
deriving DecidableEq, Repr

/-- The method arming of `http_request::init_curl` on a fresh handle. -/
def init_curl (m_method : HTTP_METHOD) : curl_handle :=
  match m_method with
  | HTTP_METHOD_GET => {}
  | HTTP_METHOD_PUT => { put := true }
  | HTTP_METHOD_POST => { post := true }
  | HTTP_METHOD_DELETE => { customrequest := some "DELETE".toList }
  | HTTP_METHOD_HEAD => { nobody := true }

/-- The state of an `http_request`.  `m_http_log` records whether a trace
sink is configured. -/
structure http_request where
  m_uri : Str
  m_method : HTTP_METHOD
  m_header_params : http_params := []
  m_query_params : http_params := []
  m_follow_redirects : Bool := true
  m_http_log : Bool := false
  m_upload_obj : http_upload_object := {}
  m_curl : curl_handle
deriving DecidableEq, Repr

/-- The constructor `http_request::http_request(host, path, method)`. -/
def http_request.new (host path : Str) (method : HTTP_METHOD) : http_request :=
  { m_uri := if path ≠ [] then host ++ path else host
    m_method := method
    m_curl := init_curl method }

/-- The member function `http_request::add_header`. -/
def add_header (self : http_request) (key value : Str) : http_request :=
  { self with m_header_params := map_assign key value self.m_header_params }

/-- The member function `http_request::del_header`. -/
def del_header (self : http_request) (key : Str) : http_request :=
  if map_find key self.m_header_params ≠ none then
    { self with m_header_params := map_erase key self.m_header_params }
  else self

/-- The member function `http_request::set_headers`. -/
def set_headers (self : http_request) (headers : http_params) : http_request :=
  { self with m_header_params := headers }

/-- The member function `http_request::get_headers`. -/
def get_headers (self : http_request) : http_params :=
  self.m_header_params

/-- The member function `http_request::add_query`. -/
def add_query (self : http_request) (key value : Str) : http_request :=
  { self with m_query_params := map_assign key value self.m_query_params }

/-! ## The transport -/

/-- The NUL-terminated string `s.c_str()` as a C API reads it: the characters
of `s` before its first NUL. -/
def c_str (s : Str) : Str := s.takeWhile (fun c => !decide (c = Char.ofNat 0))

/-- The conversion `static_cast<int64_t>` of a `size_t` value. -/
def to_int64 (n : Nat) : Int :=
  if n % 2 ^ 64 < 2 ^ 63 then (n % 2 ^ 64 : Nat) else ((n % 2 ^ 64 : Nat) : Int) - 2 ^ 64

/-- One callback invocation made by the transport during the exchange. -/
inductive curl_event where
  /-- The header function is invoked with a received line. -/
  | header (data : Str) (size nmemb : Nat)
  /-- The write function is invoked with a chunk of the body. -/
  | write (data : Str) (size nmemb : Nat)
  /-- The read function is invoked for at most `size * nmemb` bytes. -/
  | read (size nmemb : Nat)
deriving DecidableEq, Repr

/-- What one blocking `curl_easy_perform` does, as far as the request sees
it: the callback invocations in order, the result code (`0` is `CURLE_OK`)
and the value of `CURLINFO_RESPONSE_CODE` afterwards. -/
structure curl_transfer where
  events : List curl_event := []
  res : Nat := 0
  response_code : Int := 0
deriving DecidableEq, Repr

/-- The result code `CURLE_OK`. -/
def CURLE_OK : Nat := 0

/-- The exception `http_req_failure`: message and transport code. -/
structure http_req_failure where
  what : Str
  code : Nat
deriving DecidableEq, Repr

/-! ## `perform` -/

/-- The loop of `perform` over `m_query_params` that builds `query`, starting
from the value `query` has so far.  `escape` is `curl_easy_escape`. -/
def build_query (escape : Str → Str) (query : Str) : http_params → Str
  | [] => query
  | it :: rest =>
    let query := if query.isEmpty then query ++ "?".toList else query ++ "&".toList
    let query := query ++ escape it.1
    let query := query ++ "=".toList
    let query := query ++ escape it.2
    build_query escape query rest

/-- The loop of `perform` over `m_header_params` that builds `headerList`,
one `curl_slist_append` of `headerString.c_str()` per header. -/
def build_header_list (headerList : List Str) : http_params → List Str
  | [] => headerList
  | it :: rest =>
    let headerString := it.1
    let headerString := headerString ++ ": ".toList
    let headerString := headerString ++ it.2
    build_header_list (headerList ++ [c_str headerString]) rest

/-- The effect of the callback invocations of one exchange on the response
`ret` and on the upload cursor: a callback runs when it is attached to the
handle. -/
def run_events (h : curl_handle) :
    List curl_event → http_res × http_upload_object → http_res × http_upload_object
  | [], st => st
  | curl_event.header data size nmemb :: rest, (ret, u) =>
    run_events h rest
      (if h.headerfunction then (header_callback data size nmemb ret).2 else ret, u)
  | curl_event.write data size nmemb :: rest, (ret, u) =>
    run_events h rest
      (if h.writefunction then (write_callback data size nmemb ret).2 else ret, u)
  | curl_event.read size nmemb :: rest, (ret, u) =>
    run_events h rest
      (ret, if h.readfunction then (read_callback size nmemb u).2.2 else u)

/-- Lines 140-159 of `perform`: the query string is built and, when it is not
empty, appended to `m_uri`. -/
def perform_query (escape : Str → Str) (self : http_request) : http_request :=
  let query := build_query escape [] self.m_query_params
  if !query.isEmpty then { self with m_uri := self.m_uri ++ query } else self

/-- Lines 161-176 of `perform`: the URL, the write callback unless the method
is `HEAD`, and the header callback are set on the handle. -/
def perform_callbacks (self : http_request) (h : curl_handle) : curl_handle :=
  let h := { h with url := c_str self.m_uri }
  let h := if self.m_method ≠ HTTP_METHOD_HEAD then { h with writefunction := true } else h
  { h with headerfunction := true }

/-- Lines 179-181 of `perform`: a content type that is given and not empty is
stored under the header `Accept`. -/
def perform_accept (self : http_request) (content_type : Option Str) : http_request :=
  match content_type with
  | some ct => if !ct.isEmpty then add_header self "Accept".toList ct else self
  | none => self

/-- Lines 198-218 of `perform`: a body that is given and not empty is set on
the handle as the method requires; for `PUT` the upload cursor is seeded. -/
def perform_body (self : http_request) (h : curl_handle) (body : Option Str) :
    http_request × curl_handle :=
  match body with
  | some b =>
    if !b.isEmpty then
      if self.m_method = HTTP_METHOD_PUT then
        let u : http_upload_object := { data := b, length := b.length }
        ({ self with m_upload_obj := u },
          { h with upload := true, readfunction := true, infilesize := some (to_int64 u.length) })
      else if self.m_method = HTTP_METHOD_POST then
        (self, { h with postfields := some b, postfieldsize := some b.length })
      else if self.m_method = HTTP_METHOD_DELETE then
        (self, { h with postfields := some (c_str b) })
      else (self, h)
    else (self, h)
  | none => (self, h)

/-- Lines 220-239 of `perform`: trace callback, verbosity, timeout and
redirect following are set on the handle. -/
def perform_options (self : http_request) (h : curl_handle) (timeout : Int) : curl_handle :=
  let h := { h with debugfunction := true }
  let h := { h with verbose := self.m_http_log }
  let h := if timeout ≠ 0 then { h with timeout := some timeout, nosignal := true } else h
  if self.m_follow_redirects then { h with followlocation := true } else h

/-- Lines 134-239 of `perform`, everything before the exchange: the request
and the handle as they are when `curl_easy_perform` is called. -/
def perform_setup (escape : Str → Str) (self : http_request)
    (body content_type : Option Str) (timeout : Int) : http_request × curl_handle :=
  let self := perform_query escape self
  let h := perform_callbacks self self.m_curl
  let self := perform_accept self content_type
  let headerList := build_header_list [] self.m_header_params
  let h := { h with httpheader := headerList }
  let sh := perform_body self h body
  (sh.1, perform_options sh.1 sh.2 timeout)

/-- The member function `http_request::perform`.  The transport enters
through `escape` (`curl_easy_escape`), `strerror` (`curl_easy_strerror`) and
`exchange` (`curl_easy_perform` on the configured handle).  The result is the request
after the call, whose `m_curl` is the handle as it was handed to the
transport, and either the exception thrown or the response returned. -/
def perform (escape : Str → Str) (strerror : Nat → Str)
    (exchange : curl_handle → curl_transfer)
    (self : http_request) (body content_type : Option Str) (timeout : Int) :
    http_request × Except http_req_failure http_res :=
  let ret : http_res := {}
  let sh := perform_setup escape self body content_type timeout
  let self := sh.1
  let h := sh.2
  let t := exchange h
  let st := run_events h t.events (ret, self.m_upload_obj)
  let self := { self with m_curl := h, m_upload_obj := st.2 }
  if t.res ≠ CURLE_OK then
    (self, Except.error { what := strerror t.res, code := t.res })
  else
    (self, Except.ok { st.1 with code := t.response_code })

/-- The return values and the delivered bytes of `n` successive invocations
of `read_callback` with the same `size` and `nmemb`, and the cursor left. -/
def read_repeat (size nmemb : Nat) :
    Nat → http_upload_object → List (Nat × Str) × http_upload_object
  | 0, u => ([], u)
  | n + 1, u =>
    let r := read_callback size nmemb u
    let rest := read_repeat size nmemb n r.2.2
    ((r.1, r.2.1) :: rest.1, rest.2)

/-- The response after the invocations `calls` of `write_callback`, each given
as `(data, size, nmemb)`, in order. -/
def write_repeat : List (Str × Nat × Nat) → http_res → http_res
  | [], r => r
  | c :: rest, r => write_repeat rest (write_callback c.1 c.2.1 c.2.2 r).2

/-- The query string as the spec words it: `?`, then the pairs
`escape key ++ "=" ++ escape value` in the iteration order of the map, joined
with `&`. -/
def query_string (escape : Str → Str) (m : http_params) : Str :=
  "?".toList ++
    "&".toList.intercalate (m.map (fun it => escape it.1 ++ "=".toList ++ escape it.2))

/-- The line `key: value` that `perform` formats for one header. -/
def header_line (it : Str × Str) : Str := it.1 ++ ": ".toList ++ it.2

/-- The characters `curl_easy_escape` leaves as they are: letters, digits,
`-`, `.`, `_` and `~`. -/
def is_unreserved (c : Char) : Bool :=
  c.isAlphanum || c = '-' || c = '.' || c = '_' || c = '~'

/-- The upper-case hexadecimal digit of `n < 16`. -/
def hex_digit (n : Nat) : Char :=
  "0123456789ABCDEF".toList.getD n '0'

/-- The percent-encoding of libcurl's `curl_easy_escape`, used where a
transport is needed for a concrete run: unreserved characters are kept, every
other byte becomes `%` and two upper-case hexadecimal digits. -/
def percent_encode : Str → Str
  | [] => []
  | c :: rest =>
    if is_unreserved c then c :: percent_encode rest
    else '%' :: hex_digit (c.toNat / 16 % 16) :: hex_digit (c.toNat % 16) :: percent_encode rest

/-- The message function used where a transport is needed for a concrete
run. -/
def no_message (_ : Nat) : Str := []

/-- An exchange that succeeds without invoking any callback, used where a
transport is needed for a concrete run. -/
def silent_exchange (_ : curl_handle) : curl_transfer := {}

/-- A `GET` request for `http://host/p` with the query parameter `a=1`. -/
def request_with_query : http_request :=
  add_query (http_request.new "http://host".toList "/p".toList HTTP_METHOD_GET)
    "a".toList "1".toList

/-- An exchange that succeeds after asking the read function four times for
at most two bytes, used where a transport is needed for a concrete run. -/
def reading_exchange (_ : curl_handle) : curl_transfer :=
  { events := [curl_event.read 1 2, curl_event.read 1 2, curl_event.read 1 2,
      curl_event.read 1 2] }

/-- A `PUT` request for `http://host/p` without headers. -/
def put_request : http_request :=
  http_request.new "http://host".toList "/p".toList HTTP_METHOD_PUT

/-- A `PUT` request for `http://host/p` whose only header has the key
`Accept: x` and the value `y`. -/
def put_request_with_colon_key : http_request :=
  add_header put_request "Accept: x".toList "y".toList

/-- A `PUT` request for `http://host/p` with the headers `Accept: old` and
`X-Id: 7`. -/
def put_request_with_headers : http_request :=
  add_header (add_header put_request "X-Id".toList "7".toList) "Accept".toList "old".toList

/-- A content type that holds a NUL: `a`, NUL, `b`. -/
def content_type_with_nul : Str := ['a', Char.ofNat 0, 'b']

/-! ## The trace dump -/

/-- The local `width` of `curl_dump`. -/
def width : Nat := 0xFFF

/-- The local `nohex` of `curl_dump`. -/
def nohex : Bool := true

/-- The character `curl_dump` writes for the payload byte `b`: the byte itself
when `0x20 ≤ b < 0x80`, a dot otherwise. -/
def render_byte (b : Nat) : Char :=
  if 0x20 ≤ b ∧ b < 0x80 then Char.ofNat b else '.'

/-- The summary line of `curl_dump`: the text, the size in decimal, right
aligned in ten columns, and the size in hexadecimal. -/
def dump_summary (text : Str) (size : Nat) : Str :=
  text ++ ", ".toList
    ++ (List.replicate (10 - (Nat.toDigits 10 size).length) ' ' ++ Nat.toDigits 10 size)
    ++ " bytes ".toList ++ "(0x".toList ++ Nat.toDigits 16 size ++ ")".toList ++ "\n".toList

/-- The inner loop of `curl_dump` that shows the data of the row starting at
`i`, entered at column `c` with `n = width - c` columns left: the characters
written, and the value of `i` when the loop is left.  The `size_t` value of
`c + 2 - width` is `c + 2 + (2 ^ 64 - width)` reduced modulo `2 ^ 64`.  The
hexadecimal columns are not shown since `nohex` is set. -/
def dump_row (ptr : List Nat) (size i : Nat) : Nat → Nat → Str × Nat
  | 0, _ => ([], i)
  | n + 1, c =>
    if c < width ∧ size_t (i + c) < size then
      if nohex = true ∧ size_t (i + c + 1) < size ∧ ptr.getD (size_t (i + c)) 0 = 0x0D
          ∧ ptr.getD (size_t (i + c + 1)) 0 = 0x0A then
        ([], size_t (i + size_t (c + 2 + (2 ^ 64 - width))))
      else
        let ch := render_byte (ptr.getD (size_t (i + c)) 0)
        if nohex = true ∧ size_t (i + c + 2) < size ∧ ptr.getD (size_t (i + c + 1)) 0 = 0x0D
            ∧ ptr.getD (size_t (i + c + 2)) 0 = 0x0A then
          ([ch], size_t (i + size_t (c + 3 + (2 ^ 64 - width))))
        else
          let r := dump_row ptr size i n (c + 1)
          (ch :: r.1, r.2)
    else ([], i)

/-- The outer loop of `curl_dump` from the row starting at `i`: every row is
three blanks, the characters of the row and a line end.  `fuel` bounds the
number of rows; `none` means that it did not suffice. -/
def dump_rows (ptr : List Nat) (size : Nat) : Nat → Nat → Option Str
  | 0, _ => none
  | fuel + 1, i =>
    if i < size then
      let row := dump_row ptr size i width 0
      match dump_rows ptr size fuel (size_t (row.2 + width)) with
      | some rest => some ("   ".toList ++ row.1 ++ "\n".toList ++ rest)
      | none => none
    else some []

/-- The member function `http_request::curl_dump`: the text handed to the
trace sink; `fuel` bounds the number of rows. -/
def curl_dump (text : Str) (ptr : List Nat) (size : Nat) (fuel : Nat) : Option Str :=
  match dump_rows ptr size fuel 0 with
  | some rows => some (dump_summary text size ++ rows)
  | none => none

/-- The payload without its CR-LF pairs. -/
def strip_crlf : List Nat → List Nat
  | [] => []
  | [b] => [b]
  | b :: b' :: rest =>
    if b = 0x0D ∧ b' = 0x0A then strip_crlf rest else b :: strip_crlf (b' :: rest)

/-- The text of the rows `lines` as `curl_dump` writes them: each row is
preceded by three blanks and followed by a line end. -/
def rows_text (lines : List Str) : Str :=
  (lines.map (fun l => "   ".toList ++ l ++ "\n".toList)).flatten

/-- One row of the dump, read off the remaining payload `q` with `n` columns
left: the characters of the row and the payload that remains after it. -/
def row_chars : Nat → List Nat → Str × List Nat
  | 0, q => ([], q)
  | n + 1, q =>
    if 0 < q.length then
      if 1 < q.length ∧ q.getD 0 0 = 0x0D ∧ q.getD 1 0 = 0x0A then ([], q.drop 2)
      else
        let ch := render_byte (q.getD 0 0)
        if 2 < q.length ∧ q.getD 1 0 = 0x0D ∧ q.getD 2 0 = 0x0A then ([ch], q.drop 3)
        else
          let r := row_chars n (q.drop 1)
          (ch :: r.1, r.2)
    else ([], [])

/-- The rows of the dump of the payload `q`, at most `fuel` of them. -/
def dump_lines : Nat → List Nat → List Str
  | 0, _ => []
  | fuel + 1, q =>
    if q = [] then [] else (row_chars width q).1 :: dump_lines fuel (row_chars width q).2

/-- The response after the invocations `calls` of `header_callback`, each
given as `(data, size, nmemb)`, in order. -/
def header_repeat : List (Str × Nat × Nat) → http_res → http_res
  | [], r => r
  | c :: rest, r => header_repeat rest (header_callback c.1 c.2.1 c.2.2 r).2

/-- The invocations of the header function among the events of an exchange. -/
def header_calls : List curl_event → List (Str × Nat × Nat)
  | [] => []
  | curl_event.header data size nmemb :: rest => (data, size, nmemb) :: header_calls rest
  | _ :: rest => header_calls rest

/-- The invocations of the write function among the events of an exchange. -/
def write_calls : List curl_event → List (Str × Nat × Nat)
  | [] => []
  | curl_event.write data size nmemb :: rest => (data, size, nmemb) :: write_calls rest
  | _ :: rest => write_calls rest

/-! ## Lemmas on `http_params` -/

theorem map_find_assign_self (key value : Str) (m : http_params) :
    map_find key (map_assign key value m) = some value := by
  induction m with
  | nil => simp [map_assign, map_find]
  | cons e rest ih =>
    obtain ⟨k, v⟩ := e
    simp only [map_assign]
    split
    · simp [map_find]
    · split
      · simp [map_find]
      · simp [map_find, *]

theorem map_find_assign_other (key value k : Str) (m : http_params) (hk : k ≠ key) :
    map_find k (map_assign key value m) = map_find k m := by
  induction m with
  | nil => simp [map_assign, map_find, hk]
  | cons e rest ih =>
    obtain ⟨k', v⟩ := e
    simp only [map_assign]
    split
    · rename_i h
      subst h
      simp [map_find, hk]
    · split
      · simp [map_find, hk]
      · simp [map_find, ih]

theorem map_find_eq_none_iff (key : Str) (m : http_params) :
    map_find key m = none ↔ ∀ e ∈ m, e.1 ≠ key := by
  induction m with
  | nil => simp [map_find]
  | cons e rest ih =>
    obtain ⟨k, v⟩ := e
    simp only [map_find]
    split
    · rename_i h
      subst h
      simp
    · rename_i h
      simp [ih, Ne.symm h]

theorem map_erase_of_absent (key : Str) (m : http_params) (h : map_find key m = none) :
    map_erase key m = m := by
  rw [map_find_eq_none_iff] at h
  simp only [map_erase, List.filter_eq_self]
  intro e he
  simpa using h e he

theorem map_find_erase_self (key : Str) (m : http_params) :
    map_find key (map_erase key m) = none := by
  rw [map_find_eq_none_iff]
  intro e he
  simp only [map_erase, List.mem_filter] at he
  simpa using he.2

theorem map_find_erase_other (key k : Str) (m : http_params) (hk : k ≠ key) :
    map_find k (map_erase key m) = map_find k m := by
  induction m with
  | nil => simp [map_erase, map_find]
  | cons e rest ih =>
    obtain ⟨k', v⟩ := e
    by_cases h : k' = key
    · subst h
      have : map_erase k' ((k', v) :: rest) = map_erase k' rest := by
        simp [map_erase]
      rw [this, ih]
      simp [map_find, hk]
    · have : map_erase key ((k', v) :: rest) = (k', v) :: map_erase key rest := by
        simp [map_erase, h]
      rw [this]
      simp [map_find, ih]

theorem str_lt_irrefl (a : Str) : str_lt a a = false := by
  induction a with
  | nil => rfl
  | cons c rest ih => simp [str_lt, ih]

theorem str_lt_asymm (a b : Str) (h : str_lt a b = true) : str_lt b a = false := by
  induction a generalizing b with
  | nil =>
    cases b with
    | nil => rfl
    | cons _ _ => rfl
  | cons c as ih =>
    cases b with
    | nil => simp [str_lt] at h
    | cons d bs =>
      simp only [str_lt] at h ⊢
      by_cases h₁ : c.toNat < d.toNat
      · have h₂ : ¬ d.toNat < c.toNat := by omega
        simp [h₂, h₁]
      · by_cases h₂ : d.toNat < c.toNat
        · simp [h₁, h₂] at h
        · simp only [h₁, h₂, if_false] at h ⊢
          exact ih bs h

theorem mem_map_assign (key value : Str) (m : http_params) (e : Str × Str)
    (he : e ∈ map_assign key value m) : e = (key, value) ∨ e ∈ m := by
  induction m with
  | nil => simpa [map_assign] using he
  | cons x rest ih =>
    obtain ⟨k, v⟩ := x
    simp only [map_assign] at he
    split at he
    · rcases List.mem_cons.1 he with h | h
      · exact Or.inl h
      · exact Or.inr (List.mem_cons_of_mem _ h)
    · split at he
      · rcases List.mem_cons.1 he with h | h
        · exact Or.inl h
        · exact Or.inr h
      · rcases List.mem_cons.1 he with h | h
        · exact Or.inr (h ▸ List.mem_cons_self _ _)
        · rcases ih h with h | h
          · exact Or.inl h
          · exact Or.inr (List.mem_cons_of_mem _ h)

theorem str_lt_trans (a b c : Str) (hab : str_lt a b = true) (hbc : str_lt b c = true) :
    str_lt a c = true := by
  induction a generalizing b c with
  | nil =>
    cases b with
    | nil => simp [str_lt] at hab
    | cons y bs =>
      cases c with
      | nil => simp [str_lt] at hbc
      | cons z cs => rfl
  | cons x as ih =>
    cases b with
    | nil => simp [str_lt] at hab
    | cons y bs =>
      cases c with
      | nil => simp [str_lt] at hbc
      | cons z cs =>
        simp only [str_lt] at hab hbc ⊢
        by_cases h₁ : x.toNat < y.toNat
        · by_cases h₂ : y.toNat < z.toNat
          · have : x.toNat < z.toNat := by omega
            simp [this]
          · by_cases h₃ : z.toNat < y.toNat
            · simp [h₂, h₃] at hbc
            · have : x.toNat < z.toNat := by omega
              simp [this]
        · by_cases h₁' : y.toNat < x.toNat
          · simp [h₁, h₁'] at hab
          · simp only [h₁, h₁', if_false] at hab
            by_cases h₂ : y.toNat < z.toNat
            · have : x.toNat < z.toNat := by omega
              simp [this]
            · by_cases h₃ : z.toNat < y.toNat
              · simp [h₂, h₃] at hbc
              · simp only [h₂, h₃, if_false] at hbc
                have e₁ : ¬ x.toNat < z.toNat := by omega
                have e₂ : ¬ z.toNat < x.toNat := by omega
                simp only [e₁, e₂, if_false]
                exact ih bs cs hab hbc

theorem str_lt_total (a b : Str) (hne : a ≠ b) (hab : str_lt a b = false) :
    str_lt b a = true := by
  induction a generalizing b with
  | nil =>
    cases b with
    | nil => exact absurd rfl hne
    | cons y bs => simp [str_lt] at hab
  | cons x as ih =>
    cases b with
    | nil => rfl
    | cons y bs =>
      simp only [str_lt] at hab ⊢
      by_cases h₁ : x.toNat < y.toNat
      · simp [h₁] at hab
      · by_cases h₂ : y.toNat < x.toNat
        · simp [h₂]
        · simp only [h₁, h₂, if_false] at hab ⊢
          have hxy : x = y := by
            have : x.toNat = y.toNat := by omega
            rw [← Char.ofNat_toNat x, ← Char.ofNat_toNat y, this]
          subst hxy
          exact ih bs (fun h => hne (by rw [h])) hab

theorem map_wf_assign (key value : Str) (m : http_params) (hwf : map_wf m) :
    map_wf (map_assign key value m) := by
  induction m with
  | nil => simp [map_assign, map_wf]
  | cons x rest ih =>
    obtain ⟨k, v⟩ := x
    simp only [map_wf, List.pairwise_cons] at hwf
    obtain ⟨hhead, hrest⟩ := hwf
    simp only [map_assign]
    split
    · rename_i h
      subst h
      simp only [map_wf, List.pairwise_cons]
      exact ⟨hhead, hrest⟩
    · rename_i hne
      split
      · rename_i hlt
        simp only [map_wf, List.pairwise_cons]
        refine ⟨?_, hhead, hrest⟩
        intro e he
        rcases List.mem_cons.1 he with h | h
        · rw [h]; exact hlt
        · exact str_lt_trans _ _ _ hlt (hhead e h)
      · rename_i hnlt
        simp only [map_wf, List.pairwise_cons]
        refine ⟨?_, ih hrest⟩
        intro e he
        rcases mem_map_assign _ _ _ _ he with h | h
        · rw [h]
          exact str_lt_total _ _ hne (by simpa using hnlt)
        · exact hhead e h

theorem map_wf_erase (key : Str) (m : http_params) (hwf : map_wf m) :
    map_wf (map_erase key m) :=
  List.Pairwise.sublist (List.filter_sublist m) hwf

theorem mem_map_assign_self (key value : Str) (m : http_params) :
    (key, value) ∈ map_assign key value m := by
  induction m with
  | nil => simp [map_assign]
  | cons x rest ih =>
    obtain ⟨k, v⟩ := x
    simp only [map_assign]
    split
    · exact List.mem_cons_self _ _
    · split
      · exact List.mem_cons_self _ _
      · exact List.mem_cons_of_mem _ ih

theorem mem_map_assign_of_mem (key value : Str) (m : http_params) (e : Str × Str)
    (he : e ∈ m) (hk : e.1 ≠ key) : e ∈ map_assign key value m := by
  induction m with
  | nil => simp at he
  | cons x rest ih =>
    obtain ⟨k, v⟩ := x
    simp only [map_assign]
    split
    · rename_i h
      rcases List.mem_cons.1 he with h' | h'
      · subst h'
        exact absurd h.symm hk
      · exact List.mem_cons_of_mem _ h'
    · split
      · exact List.mem_cons_of_mem _ he
      · rcases List.mem_cons.1 he with h' | h'
        · exact h' ▸ List.mem_cons_self _ _
        · exact List.mem_cons_of_mem _ (ih h')

theorem filter_key_of_lt (key : Str) (m : http_params)
    (h : ∀ e ∈ m, str_lt key e.1 = true) :
    m.filter (fun e => decide (e.1 = key)) = [] := by
  rw [List.filter_eq_nil_iff]
  intro e he
  have hlt := h e he
  intro heq
  simp only [decide_eq_true_eq] at heq
  rw [heq, str_lt_irrefl] at hlt
  exact Bool.noConfusion hlt

theorem map_assign_filter_key (key value : Str) (m : http_params) (hwf : map_wf m) :
    (map_assign key value m).filter (fun e => decide (e.1 = key)) = [(key, value)] := by
  induction m with
  | nil => simp [map_assign]
  | cons x rest ih =>
    obtain ⟨k, v⟩ := x
    simp only [map_wf, List.pairwise_cons] at hwf
    obtain ⟨hhead, hrest⟩ := hwf
    simp only [map_assign]
    split
    · rename_i h
      subst h
      rw [List.filter_cons_of_pos (by simp)]
      rw [filter_key_of_lt key rest (fun e he => hhead e he)]
    · rename_i hne
      split
      · rename_i hlt
        rw [List.filter_cons_of_pos (by simp)]
        rw [List.filter_cons_of_neg (by simpa using Ne.symm hne)]
        have : rest.filter (fun e => decide (e.1 = key)) = [] := by
          rw [List.filter_eq_nil_iff]
          intro e he heq
          simp only [decide_eq_true_eq] at heq
          have h₁ := hhead e he
          rw [heq] at h₁
          have h₂ := str_lt_asymm _ _ hlt
          rw [h₁] at h₂
          exact Bool.noConfusion h₂
        rw [this]
      · rw [List.filter_cons_of_neg (by simpa using Ne.symm hne)]
        exact ih hrest

theorem map_assign_assign (key v₁ v₂ : Str) (m : http_params) :
    map_assign key v₂ (map_assign key v₁ m) = map_assign key v₂ m := by
  induction m with
  | nil => simp [map_assign]
  | cons e rest ih =>
    obtain ⟨k, v⟩ := e
    by_cases h₁ : key = k
    · simp [map_assign, h₁]
    · by_cases h₂ : str_lt key k = true
      · simp [map_assign, h₁, h₂]
      · simp [map_assign, h₁, h₂, ih]

/-! ## Lemmas on the callbacks -/

theorem find_first_of_colon_none (L : Str) (h : ':' ∉ L) : find_first_of_colon L = none := by
  induction L with
  | nil => rfl
  | cons c rest ih =>
    simp only [List.mem_cons, not_or] at h
    simp [find_first_of_colon, Ne.symm h.1, ih h.2]

theorem find_first_of_colon_some (L : Str) (h : ':' ∈ L) :
    ∃ n, find_first_of_colon L = some n ∧ ':' ∉ L.take n ∧
      L = L.take n ++ ':' :: L.drop (n + 1) := by
  induction L with
  | nil => simp at h
  | cons c rest ih =>
    by_cases hc : c = ':'
    · exact ⟨0, by simp [find_first_of_colon, hc], by simp, by simp [hc]⟩
    · have hrest : ':' ∈ rest := by
        rcases List.mem_cons.1 h with h | h
        · exact absurd h.symm hc
        · exact h
      obtain ⟨n, hn, hnot, heq⟩ := ih hrest
      refine ⟨n + 1, by simp [find_first_of_colon, hc, hn], ?_, ?_⟩
      · simp only [List.take_succ_cons, List.mem_cons, not_or]
        exact ⟨fun h => hc h.symm, hnot⟩
      · simp only [List.take_succ_cons, List.drop_succ_cons, List.cons_append]
        rw [← heq]

theorem read_repeat_sizes (size nmemb : Nat) (n : Nat) (u : http_upload_object) :
    ((read_repeat size nmemb n u).1.map Prod.fst).sum
        = min u.length (n * size_t (size * nmemb)) ∧
      (read_repeat size nmemb n u).2.length = u.length - n * size_t (size * nmemb) := by
  induction n generalizing u with
  | zero => simp [read_repeat]
  | succ n ih =>
    obtain ⟨h₁, h₂⟩ := ih (read_callback size nmemb u).2.2
    simp only [read_repeat, List.map_cons, List.sum_cons, h₁, h₂]
    simp only [read_callback]
    split <;> constructor <;> simp only [Nat.succ_mul] <;> omega

theorem read_repeat_data (size nmemb : Nat) (n : Nat) (u : http_upload_object)
    (hu : u.length = u.data.length) :
    ((read_repeat size nmemb n u).1.map Prod.snd).flatten
        = u.data.take (n * size_t (size * nmemb)) ∧
      (read_repeat size nmemb n u).2.data = u.data.drop (n * size_t (size * nmemb)) := by
  induction n generalizing u with
  | zero => simp [read_repeat]
  | succ n ih =>
    have hlen : (read_callback size nmemb u).2.2.length
        = (read_callback size nmemb u).2.2.data.length := by
      simp only [read_callback, List.length_drop, hu]
    obtain ⟨h₁, h₂⟩ := ih (read_callback size nmemb u).2.2 hlen
    simp only [read_repeat, List.map_cons, List.flatten_cons, h₁, h₂]
    simp only [read_callback, hu]
    split
    · rename_i hlt
      have h0 : n * size_t (size * nmemb) + size_t (size * nmemb) ≥ u.data.length := by omega
      simp [Nat.succ_mul, List.take_of_length_le h0, List.drop_of_length_le h0]
    · rename_i hge
      constructor
      · rw [Nat.succ_mul, Nat.add_comm (n * _), List.take_add]
      · rw [List.drop_drop, Nat.succ_mul, Nat.add_comm]

theorem write_repeat_body (calls : List (Str × Nat × Nat)) (r : http_res) :
    (write_repeat calls r).body
        = r.body ++ (calls.map (fun c => c.1.take (size_t (c.2.1 * c.2.2)))).flatten ∧
      (write_repeat calls r).code = r.code ∧
      (write_repeat calls r).headers = r.headers := by
  induction calls generalizing r with
  | nil => simp [write_repeat]
  | cons c rest ih =>
    obtain ⟨h₁, h₂, h₃⟩ := ih (write_callback c.1 c.2.1 c.2.2 r).2
    simp only [write_repeat, h₁, h₂, h₃]
    simp [write_callback]

/-! ## The response-assembly callbacks -/

/-- C1: for every response `r` and every received line (the first
`size * nmemb` bytes of `data`) that contains a `':'`, `header_callback` splits
the line at its first `':'` into `key` and `value`, stores `trim value` under
`trim key` in the headers of the response, whatever was stored under that key
before, leaves every other key, the status and the body as they were, and
returns `size * nmemb`. -/
theorem header_callback_with_colon (data : Str) (size nmemb : Nat) (r : http_res)
    (h : ':' ∈ data.take (size_t (size * nmemb))) :
    ∃ key value : Str,
      data.take (size_t (size * nmemb)) = key ++ ':' :: value ∧ ':' ∉ key ∧
      header_callback data size nmemb r
        = (size_t (size * nmemb),
            { r with headers := map_assign (trim key) (trim value) r.headers }) ∧
      map_find (trim key) (header_callback data size nmemb r).2.headers
        = some (trim value) ∧
      (∀ k, k ≠ trim key →
        map_find k (header_callback data size nmemb r).2.headers = map_find k r.headers) ∧
      (header_callback data size nmemb r).2.code = r.code ∧
      (header_callback data size nmemb r).2.body = r.body := by
  obtain ⟨n, hn, hnot, heq⟩ := find_first_of_colon_some _ h
  have hcb : header_callback data size nmemb r
      = (size_t (size * nmemb),
          { r with
            headers :=
              map_assign (trim ((data.take (size_t (size * nmemb))).take n))
                (trim ((data.take (size_t (size * nmemb))).drop (n + 1))) r.headers }) := by
    simp only [header_callback, hn]
  refine ⟨_, _, heq, hnot, hcb, ?_, ?_, ?_, ?_⟩
  · rw [hcb]; exact map_find_assign_self _ _ _
  · intro k hk
    rw [hcb]; exact map_find_assign_other _ _ _ _ hk
  · rw [hcb]
  · rw [hcb]

/-- The line `"Content-Length: 42"` on a response without headers: the headers
become exactly `{"Content-Length": "42"}`. -/
theorem header_callback_with_colon_witness :
    ':' ∈ "Content-Length: 42".toList.take (size_t (1 * 18)) ∧
    header_callback "Content-Length: 42".toList 1 18 {}
      = (18, { headers := [("Content-Length".toList, "42".toList)] }) ∧
    ∃ key value : Str,
      "Content-Length: 42".toList.take (size_t (1 * 18)) = key ++ ':' :: value ∧ ':' ∉ key ∧
      header_callback "Content-Length: 42".toList 1 18 {}
        = (size_t (1 * 18),
            { ({} : http_res) with
              headers := map_assign (trim key) (trim value) ({} : http_res).headers }) ∧
      map_find (trim key) (header_callback "Content-Length: 42".toList 1 18 {}).2.headers
        = some (trim value) ∧
      (∀ k, k ≠ trim key →
        map_find k (header_callback "Content-Length: 42".toList 1 18 {}).2.headers
          = map_find k ({} : http_res).headers) ∧
      (header_callback "Content-Length: 42".toList 1 18 {}).2.code = ({} : http_res).code ∧
      (header_callback "Content-Length: 42".toList 1 18 {}).2.body = ({} : http_res).body :=
  ⟨by decide, by decide,
    header_callback_with_colon "Content-Length: 42".toList 1 18 {} (by decide)⟩

/-- C2: for every response `r` and every received line `L` (the first
`size * nmemb` bytes of `data`) without `':'`: when `trim L` is not empty,
`header_callback` stores `"present"` under `trim L` and changes no other key;
when `trim L` is empty the response is returned as it was.  Status and body
are never touched and the return value is `size * nmemb`. -/
theorem header_callback_without_colon (data : Str) (size nmemb : Nat) (r : http_res)
    (h : ':' ∉ data.take (size_t (size * nmemb))) :
    (header_callback data size nmemb r).1 = size_t (size * nmemb) ∧
    (trim (data.take (size_t (size * nmemb))) ≠ [] →
      (header_callback data size nmemb r).2
        = { r with headers :=
              map_assign (trim (data.take (size_t (size * nmemb)))) "present".toList r.headers } ∧
      map_find (trim (data.take (size_t (size * nmemb))))
          (header_callback data size nmemb r).2.headers = some "present".toList ∧
      ∀ k, k ≠ trim (data.take (size_t (size * nmemb))) →
        map_find k (header_callback data size nmemb r).2.headers = map_find k r.headers) ∧
    (trim (data.take (size_t (size * nmemb))) = [] →
      (header_callback data size nmemb r).2 = r) := by
  have hn := find_first_of_colon_none _ h
  refine ⟨?_, ?_, ?_⟩
  · simp only [header_callback, hn]
    split <;> rfl
  · intro hne
    have hlen : ¬ (trim (data.take (size_t (size * nmemb)))).length = 0 := by
      simpa [List.length_eq_zero] using hne
    have hcb : (header_callback data size nmemb r).2
        = { r with
            headers :=
              map_assign (trim (data.take (size_t (size * nmemb)))) "present".toList
                r.headers } := by
      simp only [header_callback, hn, hlen, if_false]
    refine ⟨hcb, ?_, ?_⟩
    · rw [hcb]; exact map_find_assign_self _ _ _
    · intro k hk
      rw [hcb]; exact map_find_assign_other _ _ _ _ hk
  · intro he
    simp only [header_callback, hn, he, List.length_nil, if_true]

/-- The status line `"HTTP/1.1 200 OK\r\n"` is stored under its trimmed text
with the value `"present"`; the blank line `"\r\n"` adds no entry. -/
theorem header_callback_without_colon_witness :
    ':' ∉ "HTTP/1.1 200 OK\r\n".toList.take (size_t (1 * 17)) ∧
    (header_callback "HTTP/1.1 200 OK\r\n".toList 1 17 {}).2.headers
      = [("HTTP/1.1 200 OK".toList, "present".toList)] ∧
    (header_callback "\r\n".toList 1 2 {}).2.headers = [] ∧
    (header_callback "HTTP/1.1 200 OK\r\n".toList 1 17 {}).1 = size_t (1 * 17) ∧
    (trim ("HTTP/1.1 200 OK\r\n".toList.take (size_t (1 * 17))) ≠ [] →
      (header_callback "HTTP/1.1 200 OK\r\n".toList 1 17 {}).2
        = { ({} : http_res) with
            headers :=
              map_assign (trim ("HTTP/1.1 200 OK\r\n".toList.take (size_t (1 * 17))))
                "present".toList ({} : http_res).headers } ∧
      map_find (trim ("HTTP/1.1 200 OK\r\n".toList.take (size_t (1 * 17))))
          (header_callback "HTTP/1.1 200 OK\r\n".toList 1 17 {}).2.headers
            = some "present".toList ∧
      ∀ k, k ≠ trim ("HTTP/1.1 200 OK\r\n".toList.take (size_t (1 * 17))) →
        map_find k (header_callback "HTTP/1.1 200 OK\r\n".toList 1 17 {}).2.headers
          = map_find k ({} : http_res).headers) ∧
    (trim ("HTTP/1.1 200 OK\r\n".toList.take (size_t (1 * 17))) = [] →
      (header_callback "HTTP/1.1 200 OK\r\n".toList 1 17 {}).2 = {}) :=
  ⟨by decide, by decide, by decide,
    header_callback_without_colon "HTTP/1.1 200 OK\r\n".toList 1 17 {} (by decide)⟩

/-- C9: every invocation of `write_callback` returns `size * nmemb`, the size
of the chunk it is given, and leaves status and headers of the response as
they were; after any sequence of invocations the body is the initial body
followed by the chunks, byte for byte and in the order of delivery. -/
theorem write_callback_appends_chunks (r : http_res) (calls : List (Str × Nat × Nat)) :
    (∀ (data : Str) (size nmemb : Nat) (r' : http_res),
      (write_callback data size nmemb r').1 = size_t (size * nmemb) ∧
      (write_callback data size nmemb r').2.body
        = r'.body ++ data.take (size_t (size * nmemb)) ∧
      (write_callback data size nmemb r').2.code = r'.code ∧
      (write_callback data size nmemb r').2.headers = r'.headers) ∧
    (write_repeat calls r).body
      = r.body ++ (calls.map (fun c => c.1.take (size_t (c.2.1 * c.2.2)))).flatten ∧
    (write_repeat calls r).code = r.code ∧
    (write_repeat calls r).headers = r.headers :=
  ⟨fun _ _ _ _ => ⟨rfl, rfl, rfl, rfl⟩, write_repeat_body calls r⟩

/-- C3: with a requested chunk size `C = size * nmemb > 0`, every invocation
of `read_callback` returns `min remaining C` and lowers `remaining` by that
amount; the sizes returned by `n` successive invocations on a cursor with `N`
bytes remaining sum to `min N (n * C)`, hence to `N` as soon as `n * C ≥ N`,
and the cursor is then exhausted; an invocation on an exhausted cursor
returns `0`. -/
theorem read_callback_cursor (size nmemb : Nat) (u : http_upload_object)
    (hC : 0 < size_t (size * nmemb)) :
    (∀ u' : http_upload_object,
      (read_callback size nmemb u').1 = min u'.length (size_t (size * nmemb)) ∧
      (read_callback size nmemb u').2.2.length
        = u'.length - (read_callback size nmemb u').1 ∧
      (read_callback size nmemb u').1 ≤ u'.length) ∧
    (∀ n, ((read_repeat size nmemb n u).1.map Prod.fst).sum
        = min u.length (n * size_t (size * nmemb))) ∧
    (∀ n, u.length ≤ n →
      ((read_repeat size nmemb n u).1.map Prod.fst).sum = u.length ∧
      (read_repeat size nmemb n u).2.length = 0) ∧
    (∀ u' : http_upload_object, u'.length = 0 → (read_callback size nmemb u').1 = 0) := by
  refine ⟨?_, ?_, ?_, ?_⟩
  · intro u'
    refine ⟨?_, rfl, ?_⟩ <;> simp only [read_callback] <;> split <;> omega
  · intro n
    exact (read_repeat_sizes size nmemb n u).1
  · intro n hn
    obtain ⟨h₁, h₂⟩ := read_repeat_sizes size nmemb n u
    have : u.length ≤ n * size_t (size * nmemb) :=
      Nat.le_trans hn (Nat.le_mul_of_pos_right n hC)
    rw [h₁, h₂]
    omega
  · intro u' h0
    simp only [read_callback, h0]
    split <;> omega

/-- A body of 5 bytes read in chunks of 2: the sizes are 2, 2, 1 and then 0. -/
theorem read_callback_cursor_witness :
    0 < size_t (1 * 2) ∧
    (read_repeat 1 2 4 { data := "hello".toList, length := 5 }).1.map Prod.fst
      = [2, 2, 1, 0] ∧
    ((∀ u' : http_upload_object,
      (read_callback 1 2 u').1 = min u'.length (size_t (1 * 2)) ∧
      (read_callback 1 2 u').2.2.length = u'.length - (read_callback 1 2 u').1 ∧
      (read_callback 1 2 u').1 ≤ u'.length) ∧
    (∀ n, ((read_repeat 1 2 n { data := "hello".toList, length := 5 }).1.map Prod.fst).sum
        = min ({ data := "hello".toList, length := 5 } : http_upload_object).length
            (n * size_t (1 * 2))) ∧
    (∀ n, ({ data := "hello".toList, length := 5 } : http_upload_object).length ≤ n →
      ((read_repeat 1 2 n { data := "hello".toList, length := 5 }).1.map Prod.fst).sum
        = ({ data := "hello".toList, length := 5 } : http_upload_object).length ∧
      (read_repeat 1 2 n { data := "hello".toList, length := 5 }).2.length = 0) ∧
    (∀ u' : http_upload_object, u'.length = 0 → (read_callback 1 2 u').1 = 0)) :=
  ⟨by decide, by decide,
    read_callback_cursor 1 2 { data := "hello".toList, length := 5 } (by decide)⟩

/-! ## Header management -/

/-- C6: after `add_header k v`, `get_headers` maps `k` to `v` and agrees with
the former headers on every other key, so that adding a pair twice equals
adding it once and a later value for `k` replaces an earlier one; `del_header
k` leaves the headers as they are when `k` is absent and removes only `k` when
it is present; after `set_headers M`, `get_headers` is `M` whatever the
headers were. -/
theorem header_management (self : http_request) (k v : Str) (M : http_params) :
    (map_find k (get_headers (add_header self k v)) = some v ∧
      ∀ k', k' ≠ k →
        map_find k' (get_headers (add_header self k v)) = map_find k' (get_headers self)) ∧
    add_header (add_header self k v) k v = add_header self k v ∧
    (∀ v', add_header (add_header self k v') k v = add_header self k v) ∧
    (map_find k (get_headers self) = none →
      get_headers (del_header self k) = get_headers self) ∧
    (map_find k (get_headers self) ≠ none →
      map_find k (get_headers (del_header self k)) = none ∧
      ∀ k', k' ≠ k →
        map_find k' (get_headers (del_header self k)) = map_find k' (get_headers self)) ∧
    get_headers (set_headers self M) = M := by
  refine ⟨⟨?_, ?_⟩, ?_, ?_, ?_, ?_, rfl⟩
  · exact map_find_assign_self _ _ _
  · intro k' hk'
    exact map_find_assign_other _ _ _ _ hk'
  · simp only [add_header, map_assign_assign]
  · intro v'
    simp only [add_header, map_assign_assign]
  · intro h
    simp only [del_header, get_headers] at h ⊢
    simp [h]
  · intro h
    simp only [del_header, get_headers] at h ⊢
    simp only [h, ne_eq, not_false_eq_true, if_true]
    exact ⟨map_find_erase_self _ _, fun k' hk' => map_find_erase_other _ _ _ hk'⟩

/-! ## `perform` -/

theorem build_query_of_ne_nil (escape : Str → Str) (m : http_params) (query : Str)
    (hq : query ≠ []) :
    build_query escape query m
      = query ++ (m.map (fun it =>
          "&".toList ++ (escape it.1 ++ "=".toList ++ escape it.2))).flatten := by
  induction m generalizing query with
  | nil => simp [build_query]
  | cons it rest ih =>
    have hne : query.isEmpty = false := by
      cases query with
      | nil => exact absurd rfl hq
      | cons _ _ => rfl
    simp only [build_query, hne]
    rw [ih _ (by simp)]
    simp

theorem intercalate_cons (sep x : Str) (xs : List Str) :
    sep.intercalate (x :: xs) = x ++ (xs.map (fun y => sep ++ y)).flatten := by
  induction xs generalizing x with
  | nil => simp [List.intercalate, List.intersperse]
  | cons y ys ih =>
    have := ih y
    simp only [List.intercalate] at this ⊢
    simp [List.intersperse, this]

theorem build_query_eq (escape : Str → Str) (m : http_params) (hm : m ≠ []) :
    build_query escape [] m = query_string escape m := by
  cases m with
  | nil => exact absurd rfl hm
  | cons it rest =>
    simp only [build_query, query_string, List.map_cons, intercalate_cons]
    rw [build_query_of_ne_nil _ _ _ (by simp)]
    simp [List.map_map, Function.comp_def]

theorem build_header_list_eq (m : http_params) (headerList : List Str) :
    build_header_list headerList m = headerList ++ m.map (fun it => c_str (header_line it)) := by
  induction m generalizing headerList with
  | nil => simp [build_header_list]
  | cons it rest ih =>
    simp only [build_header_list, ih, header_line]
    simp

theorem perform_fst (escape : Str → Str) (strerror : Nat → Str)
    (exchange : curl_handle → curl_transfer) (self : http_request)
    (body content_type : Option Str) (timeout : Int) :
    (perform escape strerror exchange self body content_type timeout).1
      = { (perform_setup escape self body content_type timeout).1 with
          m_curl := (perform_setup escape self body content_type timeout).2
          m_upload_obj :=
            (run_events (perform_setup escape self body content_type timeout).2
              (exchange (perform_setup escape self body content_type timeout).2).events
              ({}, (perform_setup escape self body content_type timeout).1.m_upload_obj)).2 } := by
  simp only [perform]
  split <;> rfl

theorem perform_query_m_uri (escape : Str → Str) (self : http_request) :
    (perform_query escape self).m_uri
      = self.m_uri ++ build_query escape [] self.m_query_params := by
  simp only [perform_query]
  split
  · rfl
  · rename_i h
    simp only [Bool.not_eq_true, Bool.not_eq_false', List.isEmpty_iff] at h
    simp [h]

theorem perform_query_m_header_params (escape : Str → Str) (self : http_request) :
    (perform_query escape self).m_header_params = self.m_header_params := by
  simp only [perform_query]
  split <;> rfl

theorem perform_query_m_query_params (escape : Str → Str) (self : http_request) :
    (perform_query escape self).m_query_params = self.m_query_params := by
  simp only [perform_query]
  split <;> rfl

theorem perform_query_m_method (escape : Str → Str) (self : http_request) :
    (perform_query escape self).m_method = self.m_method := by
  simp only [perform_query]
  split <;> rfl

theorem perform_accept_m_uri (self : http_request) (content_type : Option Str) :
    (perform_accept self content_type).m_uri = self.m_uri := by
  simp only [perform_accept]
  split
  · split <;> rfl
  · rfl

theorem perform_accept_m_query_params (self : http_request) (content_type : Option Str) :
    (perform_accept self content_type).m_query_params = self.m_query_params := by
  simp only [perform_accept]
  split
  · split <;> rfl
  · rfl

theorem perform_accept_m_method (self : http_request) (content_type : Option Str) :
    (perform_accept self content_type).m_method = self.m_method := by
  simp only [perform_accept]
  split
  · split <;> rfl
  · rfl

theorem perform_body_fst (self : http_request) (h : curl_handle) (body : Option Str) :
    (perform_body self h body).1.m_uri = self.m_uri ∧
    (perform_body self h body).1.m_query_params = self.m_query_params ∧
    (perform_body self h body).1.m_header_params = self.m_header_params ∧
    (perform_body self h body).1.m_method = self.m_method := by
  simp only [perform_body]
  repeat' split
  all_goals exact ⟨rfl, rfl, rfl, rfl⟩

theorem perform_body_snd (self : http_request) (h : curl_handle) (body : Option Str) :
    (perform_body self h body).2.url = h.url ∧
    (perform_body self h body).2.httpheader = h.httpheader := by
  simp only [perform_body]
  repeat' split
  all_goals exact ⟨rfl, rfl⟩

theorem perform_options_keeps (self : http_request) (h : curl_handle) (timeout : Int) :
    (perform_options self h timeout).url = h.url ∧
    (perform_options self h timeout).httpheader = h.httpheader ∧
    (perform_options self h timeout).upload = h.upload ∧
    (perform_options self h timeout).readfunction = h.readfunction ∧
    (perform_options self h timeout).writefunction = h.writefunction ∧
    (perform_options self h timeout).headerfunction = h.headerfunction := by
  simp only [perform_options]
  repeat' split
  all_goals exact ⟨rfl, rfl, rfl, rfl, rfl, rfl⟩

theorem perform_callbacks_url (self : http_request) (h : curl_handle) :
    (perform_callbacks self h).url = c_str self.m_uri := by
  simp only [perform_callbacks]
  split <;> rfl

theorem perform_setup_m_uri (escape : Str → Str) (self : http_request)
    (body content_type : Option Str) (timeout : Int) :
    (perform_setup escape self body content_type timeout).1.m_uri
      = self.m_uri ++ build_query escape [] self.m_query_params := by
  simp only [perform_setup]
  rw [(perform_body_fst _ _ _).1, perform_accept_m_uri, perform_query_m_uri]

theorem perform_setup_m_query_params (escape : Str → Str) (self : http_request)
    (body content_type : Option Str) (timeout : Int) :
    (perform_setup escape self body content_type timeout).1.m_query_params
      = self.m_query_params := by
  simp only [perform_setup]
  rw [(perform_body_fst _ _ _).2.1, perform_accept_m_query_params,
    perform_query_m_query_params]

theorem perform_setup_url (escape : Str → Str) (self : http_request)
    (body content_type : Option Str) (timeout : Int) :
    (perform_setup escape self body content_type timeout).2.url
      = c_str (self.m_uri ++ build_query escape [] self.m_query_params) := by
  simp only [perform_setup]
  rw [(perform_options_keeps _ _ _).1, (perform_body_snd _ _ _).1]
  simp only [perform_callbacks_url, perform_query_m_uri]

theorem perform_setup_httpheader (escape : Str → Str) (self : http_request)
    (body content_type : Option Str) (timeout : Int) :
    (perform_setup escape self body content_type timeout).2.httpheader
      = (perform_accept self content_type).m_header_params.map
          (fun it => c_str (header_line it)) := by
  simp only [perform_setup]
  rw [(perform_options_keeps _ _ _).2.1, (perform_body_snd _ _ _).2]
  simp only [build_header_list_eq, List.nil_append]
  congr 1
  simp only [perform_accept]
  split
  · split
    · simp only [add_header, perform_query_m_header_params]
    · exact perform_query_m_header_params _ _
  · exact perform_query_m_header_params _ _

theorem perform_m_uri (escape : Str → Str) (strerror : Nat → Str)
    (exchange : curl_handle → curl_transfer) (self : http_request)
    (body content_type : Option Str) (timeout : Int) :
    (perform escape strerror exchange self body content_type timeout).1.m_uri
      = self.m_uri ++ build_query escape [] self.m_query_params := by
  rw [perform_fst]
  exact perform_setup_m_uri _ _ _ _ _

theorem perform_m_query_params (escape : Str → Str) (strerror : Nat → Str)
    (exchange : curl_handle → curl_transfer) (self : http_request)
    (body content_type : Option Str) (timeout : Int) :
    (perform escape strerror exchange self body content_type timeout).1.m_query_params
      = self.m_query_params := by
  rw [perform_fst]
  exact perform_setup_m_query_params _ _ _ _ _

theorem perform_url (escape : Str → Str) (strerror : Nat → Str)
    (exchange : curl_handle → curl_transfer) (self : http_request)
    (body content_type : Option Str) (timeout : Int) :
    (perform escape strerror exchange self body content_type timeout).1.m_curl.url
      = c_str (self.m_uri ++ build_query escape [] self.m_query_params) := by
  rw [perform_fst]
  exact perform_setup_url _ _ _ _ _

theorem run_events_fst (h : curl_handle) (events : List curl_event) (ret : http_res)
    (u u' : http_upload_object) :
    (run_events h events (ret, u)).1 = (run_events h events (ret, u')).1 := by
  induction events generalizing ret u u' with
  | nil => rfl
  | cons e rest ih =>
    cases e with
    | header data size nmemb => simp only [run_events]; exact ih _ _ _
    | write data size nmemb => simp only [run_events]; exact ih _ _ _
    | read size nmemb => simp only [run_events]; exact ih _ _ _

theorem header_callback_frame (data : Str) (size nmemb : Nat) (r : http_res) :
    (header_callback data size nmemb r).2.body = r.body ∧
    (header_callback data size nmemb r).2.code = r.code := by
  simp only [header_callback]
  split
  · split <;> exact ⟨rfl, rfl⟩
  · exact ⟨rfl, rfl⟩

theorem header_callback_headers (data : Str) (size nmemb : Nat) (r r' : http_res)
    (h : r.headers = r'.headers) :
    (header_callback data size nmemb r).2.headers
      = (header_callback data size nmemb r').2.headers := by
  simp only [header_callback]
  split
  · split
    · exact h
    · simp only [h]
  · simp only [h]

theorem header_repeat_headers (calls : List (Str × Nat × Nat)) (r r' : http_res)
    (h : r.headers = r'.headers) :
    (header_repeat calls r).headers = (header_repeat calls r').headers := by
  induction calls generalizing r r' with
  | nil => exact h
  | cons c rest ih =>
    simp only [header_repeat]
    exact ih _ _ (header_callback_headers _ _ _ _ _ h)

theorem run_events_eq (h : curl_handle) (hh : h.headerfunction = true)
    (events : List curl_event) (ret : http_res) (u : http_upload_object) :
    (run_events h events (ret, u)).1.code = ret.code ∧
    (run_events h events (ret, u)).1.headers
      = (header_repeat (header_calls events) ret).headers ∧
    (run_events h events (ret, u)).1.body
      = if h.writefunction = true then
          ret.body ++ ((write_calls events).map
            (fun c => c.1.take (size_t (c.2.1 * c.2.2)))).flatten
        else ret.body := by
  induction events generalizing ret u with
  | nil =>
    simp only [run_events, header_calls, write_calls, header_repeat]
    simp
  | cons e rest ih =>
    cases e with
    | header data size nmemb =>
      simp only [run_events, header_calls, write_calls, header_repeat, hh, if_true]
      obtain ⟨h₁, h₂, h₃⟩ := ih (header_callback data size nmemb ret).2 u
      obtain ⟨f₁, f₂⟩ := header_callback_frame data size nmemb ret
      rw [h₁, h₂, h₃, f₁, f₂]
      exact ⟨rfl, rfl, rfl⟩
    | write data size nmemb =>
      simp only [run_events, header_calls, write_calls, header_repeat]
      by_cases hw : h.writefunction = true
      · simp only [hw, if_true]
        obtain ⟨h₁, h₂, h₃⟩ := ih (write_callback data size nmemb ret).2 u
        simp only [hw, if_true] at h₃
        rw [h₁, h₂, h₃]
        refine ⟨rfl, header_repeat_headers _ _ _ rfl, ?_⟩
        simp [write_callback]
      · simp only [hw]
        obtain ⟨h₁, h₂, h₃⟩ := ih ret u
        simp only [hw] at h₃
        exact ⟨h₁, h₂, h₃⟩
    | read size nmemb =>
      simp only [run_events, header_calls, write_calls, header_repeat]
      exact ih ret _

theorem perform_setup_callbacks (escape : Str → Str) (self : http_request)
    (body content_type : Option Str) (timeout : Int) :
    (perform_setup escape self body content_type timeout).2.headerfunction = true ∧
    (self.m_method ≠ HTTP_METHOD_HEAD →
      (perform_setup escape self body content_type timeout).2.writefunction = true) := by
  simp only [perform_setup]
  rw [(perform_options_keeps _ _ _).2.2.2.2.2, (perform_options_keeps _ _ _).2.2.2.2.1]
  constructor
  · simp only [perform_body]
    repeat' split
    all_goals simp only [perform_callbacks]
  · intro hm
    have hm' : (perform_query escape self).m_method ≠ HTTP_METHOD_HEAD := by
      rw [perform_query_m_method]; exact hm
    simp only [perform_body]
    repeat' split
    all_goals simp only [perform_callbacks, hm', ne_eq, not_false_eq_true, if_true]

/-- C4: when the query map is not empty, one call of `perform` appends to the
URI of the request exactly `?` followed by the pairs `escape key ++ "=" ++
escape value`, in the iteration order of the map and joined with `&`; when the
query map is empty the URI is unchanged.  With the percent-encoding of the
transport, `add_query("a","1")` and `add_query("b","x y")` on a request
without query parameters give the suffix `?a=1&b=x%20y`. -/
theorem perform_appends_query_string (escape : Str → Str) (strerror : Nat → Str)
    (exchange : curl_handle → curl_transfer) (self : http_request)
    (body content_type : Option Str) (timeout : Int) :
    (self.m_query_params ≠ [] →
      (perform escape strerror exchange self body content_type timeout).1.m_uri
        = self.m_uri ++ query_string escape self.m_query_params) ∧
    (self.m_query_params = [] →
      (perform escape strerror exchange self body content_type timeout).1.m_uri
        = self.m_uri) ∧
    (self.m_query_params = [] →
      (perform percent_encode strerror exchange
          (add_query (add_query self "a".toList "1".toList) "b".toList "x y".toList)
          body content_type timeout).1.m_uri
        = self.m_uri ++ "?a=1&b=x%20y".toList) := by
  refine ⟨?_, ?_, ?_⟩
  · intro h
    rw [perform_m_uri, build_query_eq _ _ h]
  · intro h
    rw [perform_m_uri, h]
    simp [build_query]
  · intro h
    rw [perform_m_uri]
    simp only [add_query, h]
    have : build_query percent_encode []
        (map_assign "b".toList "x y".toList (map_assign "a".toList "1".toList []))
          = "?a=1&b=x%20y".toList := by decide
    rw [this]

/-- C5, as the code has it: every call of `perform` appends the serialized
query string to the URI of the request once more and hands the accumulated URI
to the transport.  After two calls the URI is the original one followed by
the query string twice, and that is the URI of the second exchange. -/
theorem perform_twice_appends_query_twice (escape : Str → Str)
    (strerror₁ strerror₂ : Nat → Str) (exchange₁ exchange₂ : curl_handle → curl_transfer)
    (self : http_request) (body₁ type₁ body₂ type₂ : Option Str) (timeout₁ timeout₂ : Int)
    (hq : self.m_query_params ≠ []) :
    query_string escape self.m_query_params ≠ [] ∧
    (perform escape strerror₁ exchange₁ self body₁ type₁ timeout₁).1.m_uri
      = self.m_uri ++ query_string escape self.m_query_params ∧
    (perform escape strerror₁ exchange₁ self body₁ type₁ timeout₁).1.m_curl.url
      = c_str (self.m_uri ++ query_string escape self.m_query_params) ∧
    (perform escape strerror₂ exchange₂
        (perform escape strerror₁ exchange₁ self body₁ type₁ timeout₁).1
        body₂ type₂ timeout₂).1.m_uri
      = self.m_uri ++ query_string escape self.m_query_params
          ++ query_string escape self.m_query_params ∧
    (perform escape strerror₂ exchange₂
        (perform escape strerror₁ exchange₁ self body₁ type₁ timeout₁).1
        body₂ type₂ timeout₂).1.m_curl.url
      = c_str (self.m_uri ++ query_string escape self.m_query_params
          ++ query_string escape self.m_query_params) := by
  refine ⟨by simp [query_string], ?_, ?_, ?_, ?_⟩
  · rw [perform_m_uri, build_query_eq _ _ hq]
  · rw [perform_url, build_query_eq _ _ hq]
  · rw [perform_m_uri, perform_m_uri, perform_m_query_params, build_query_eq _ _ hq]
  · rw [perform_url, perform_m_uri, perform_m_query_params, build_query_eq _ _ hq]

/-- The request for `http://host/p` with the query parameter `a=1`, performed
twice through the percent-encoding transport. -/
theorem perform_twice_appends_query_twice_witness :
    request_with_query.m_query_params ≠ [] ∧
    query_string percent_encode request_with_query.m_query_params = "?a=1".toList ∧
    (query_string percent_encode request_with_query.m_query_params ≠ [] ∧
    (perform percent_encode no_message silent_exchange request_with_query none none 0).1.m_uri
      = request_with_query.m_uri
          ++ query_string percent_encode request_with_query.m_query_params ∧
    (perform percent_encode no_message silent_exchange request_with_query
        none none 0).1.m_curl.url
      = c_str (request_with_query.m_uri
          ++ query_string percent_encode request_with_query.m_query_params) ∧
    (perform percent_encode no_message silent_exchange
        (perform percent_encode no_message silent_exchange request_with_query none none 0).1
        none none 0).1.m_uri
      = request_with_query.m_uri
          ++ query_string percent_encode request_with_query.m_query_params
          ++ query_string percent_encode request_with_query.m_query_params ∧
    (perform percent_encode no_message silent_exchange
        (perform percent_encode no_message silent_exchange request_with_query none none 0).1
        none none 0).1.m_curl.url
      = c_str (request_with_query.m_uri
          ++ query_string percent_encode request_with_query.m_query_params
          ++ query_string percent_encode request_with_query.m_query_params)) :=
  ⟨by decide, by decide,
    perform_twice_appends_query_twice percent_encode no_message no_message
      silent_exchange silent_exchange request_with_query none none none none 0 0 (by decide)⟩

/-- C5 as stated fails: the request for `http://host/p` with the
query parameter `a=1` is handed to the transport as `http://host/p?a=1` on the
first call of `perform` and as `http://host/p?a=1?a=1` on the second. -/
theorem perform_twice_duplicates_query :
    request_with_query.m_query_params ≠ [] ∧
    (perform percent_encode no_message silent_exchange request_with_query
        none none 0).1.m_curl.url = "http://host/p?a=1".toList ∧
    (perform percent_encode no_message silent_exchange
        (perform percent_encode no_message silent_exchange request_with_query none none 0).1
        none none 0).1.m_curl.url = "http://host/p?a=1?a=1".toList ∧
    (perform percent_encode no_message silent_exchange
        (perform percent_encode no_message silent_exchange request_with_query none none 0).1
        none none 0).1.m_curl.url
      ≠ (perform percent_encode no_message silent_exchange request_with_query
          none none 0).1.m_curl.url := by
  decide

/-- C7: let `h` be the handle `perform` has configured and `t` what the
blocking exchange does on it.  `perform` throws `http_req_failure` carrying
the transport code `t.res`, and returns no response, exactly when `t.res` is
not `CURLE_OK`; when it is `CURLE_OK`, `perform` returns the response whose
status is the response code read back from the transport and whose headers
and body are those the callbacks assembled from an empty response during the
exchange: the headers are the result of `header_callback` on the received
lines in order and, unless the method is `HEAD`, the body is the chunks given
to `write_callback` in order. -/
theorem perform_outcome (escape : Str → Str) (strerror : Nat → Str)
    (exchange : curl_handle → curl_transfer) (self : http_request)
    (body content_type : Option Str) (timeout : Int) :
    ∃ (h : curl_handle) (t : curl_transfer),
      h = (perform_setup escape self body content_type timeout).2 ∧
      (perform escape strerror exchange self body content_type timeout).1.m_curl = h ∧
      t = exchange h ∧
      ((perform escape strerror exchange self body content_type timeout).2
          = Except.error { what := strerror t.res, code := t.res }
        ↔ t.res ≠ CURLE_OK) ∧
      ((∃ e, (perform escape strerror exchange self body content_type timeout).2
          = Except.error e) ↔ t.res ≠ CURLE_OK) ∧
      ((∃ r, (perform escape strerror exchange self body content_type timeout).2
          = Except.ok r) ↔ t.res = CURLE_OK) ∧
      (t.res = CURLE_OK →
        ∃ r, (perform escape strerror exchange self body content_type timeout).2
            = Except.ok r ∧
          r.code = t.response_code ∧
          (∀ u, r = { (run_events h t.events ({}, u)).1 with code := t.response_code }) ∧
          r.headers = (header_repeat (header_calls t.events) {}).headers ∧
          (self.m_method ≠ HTTP_METHOD_HEAD →
            r.body = ((write_calls t.events).map
              (fun c => c.1.take (size_t (c.2.1 * c.2.2)))).flatten)) := by
  refine ⟨_, _, rfl, ?_, rfl, ?_, ?_, ?_, ?_⟩
  · rw [perform_fst]
  · simp only [perform]
    split
    · rename_i h
      simp [h]
    · rename_i h
      simp [h]
  · simp only [perform]
    split
    · rename_i h
      simp [h]
    · rename_i h
      simp [h]
  · simp only [perform]
    split
    · rename_i h
      simp only [ne_eq, Decidable.not_not] at h
      simp [h]
    · rename_i h
      have h' := Decidable.not_not.1 h
      simp [h']
  · intro hres
    obtain ⟨hh, hw⟩ := perform_setup_callbacks escape self body content_type timeout
    obtain ⟨_, e₂, e₃⟩ := run_events_eq (perform_setup escape self body content_type timeout).2
      hh (exchange (perform_setup escape self body content_type timeout).2).events {}
      (perform_setup escape self body content_type timeout).1.m_upload_obj
    refine ⟨{ (run_events (perform_setup escape self body content_type timeout).2
        (exchange (perform_setup escape self body content_type timeout).2).events
        ({}, (perform_setup escape self body content_type timeout).1.m_upload_obj)).1 with
        code := (exchange (perform_setup escape self body content_type timeout).2).response_code },
      ?_, rfl, ?_, e₂, ?_⟩
    · simp only [perform, hres]
      simp only [ne_eq, not_true_eq_false, if_false]
    · intro u
      rw [run_events_fst _ _ _ _ u]
    · intro hm
      show (run_events _ _ _).1.body = _
      rw [e₃, if_pos (hw hm)]
      rfl

theorem c_str_of_no_nul (s : Str) (h : Char.ofNat 0 ∉ s) : c_str s = s := by
  induction s with
  | nil => rfl
  | cons c rest ih =>
    simp only [List.mem_cons, not_or] at h
    simp only [c_str] at ih ⊢
    rw [List.takeWhile_cons_of_pos (by simpa using Ne.symm h.1), ih h.2]

theorem c_str_append_of_no_nul (s t : Str) (h : Char.ofNat 0 ∉ s) :
    c_str (s ++ t) = s ++ c_str t := by
  induction s with
  | nil => rfl
  | cons c rest ih =>
    simp only [List.mem_cons, not_or] at h
    simp only [c_str, List.cons_append] at ih ⊢
    rw [List.takeWhile_cons_of_pos (by simpa using Ne.symm h.1), ih h.2]

theorem key_of_c_str_line (k P r r' : Str) (hk : ':' ∉ k) (hP : ':' ∉ P)
    (h : c_str (k ++ ':' :: r) = P ++ ':' :: r') : k = P := by
  induction k generalizing P with
  | nil =>
    cases P with
    | nil => rfl
    | cons p P' =>
      have h0 : c_str (':' :: r) = ':' :: c_str r := by
        simp only [c_str]
        rw [List.takeWhile_cons_of_pos (by decide)]
      simp only [List.nil_append, h0, List.cons_append, List.cons.injEq] at h
      simp only [List.mem_cons, not_or] at hP
      exact absurd h.1 hP.1
  | cons a k' ih =>
    simp only [List.mem_cons, not_or] at hk
    by_cases ha : a = Char.ofNat 0
    · have h0 : c_str (a :: k' ++ ':' :: r) = [] := by
        simp only [c_str, List.cons_append]
        rw [List.takeWhile_cons_of_neg (by simpa using ha)]
      rw [h0] at h
      cases P <;> simp at h
    · have h0 : c_str (a :: k' ++ ':' :: r) = a :: c_str (k' ++ ':' :: r) := by
        simp only [c_str, List.cons_append]
        rw [List.takeWhile_cons_of_pos (by simpa using ha)]
      rw [h0] at h
      cases P with
      | nil =>
        simp only [List.nil_append, List.cons.injEq] at h
        exact absurd h.1.symm hk.1
      | cons p P' =>
        simp only [List.cons_append, List.cons.injEq] at h
        simp only [List.mem_cons, not_or] at hP
        rw [h.1, ih P' hk.2 hP.2 h.2]

theorem perform_setup_put (escape : Str → Str) (self : http_request) (B : Str)
    (content_type : Option Str) (timeout : Int)
    (hm : self.m_method = HTTP_METHOD_PUT) (hB : B ≠ []) :
    (perform_setup escape self (some B) content_type timeout).1.m_upload_obj
      = { data := B, length := B.length } ∧
    (perform_setup escape self (some B) content_type timeout).2.upload = true ∧
    (perform_setup escape self (some B) content_type timeout).2.readfunction = true := by
  have hne : B.isEmpty = false := by
    cases B with
    | nil => exact absurd rfl hB
    | cons _ _ => rfl
  have hmeth : (perform_accept (perform_query escape self) content_type).m_method
      = HTTP_METHOD_PUT := by
    rw [perform_accept_m_method, perform_query_m_method, hm]
  simp only [perform_setup]
  refine ⟨?_, ?_, ?_⟩
  · simp only [perform_body, hne, hmeth]
    rfl
  · rw [(perform_options_keeps _ _ _).2.2.1]
    simp only [perform_body, hne, hmeth]
    rfl
  · rw [(perform_options_keeps _ _ _).2.2.2.1]
    simp only [perform_body, hne, hmeth]
    rfl

theorem perform_accept_some (self : http_request) (T : Str) (hT : T ≠ []) :
    (perform_accept self (some T)).m_header_params
      = map_assign "Accept".toList T self.m_header_params := by
  have hne : T.isEmpty = false := by
    cases T with
    | nil => exact absurd rfl hT
    | cons _ _ => rfl
  simp only [perform_accept, hne]
  rfl

theorem perform_m_header_params (escape : Str → Str) (strerror : Nat → Str)
    (exchange : curl_handle → curl_transfer) (self : http_request)
    (body content_type : Option Str) (timeout : Int) :
    (perform escape strerror exchange self body content_type timeout).1.m_header_params
      = (perform_accept self content_type).m_header_params := by
  rw [perform_fst]
  simp only [perform_setup]
  rw [(perform_body_fst _ _ _).2.2.1]
  simp only [perform_accept]
  split
  · split
    · simp only [add_header, perform_query_m_header_params]
    · exact perform_query_m_header_params _ _
  · exact perform_query_m_header_params _ _

theorem perform_httpheader (escape : Str → Str) (strerror : Nat → Str)
    (exchange : curl_handle → curl_transfer) (self : http_request)
    (body content_type : Option Str) (timeout : Int) :
    (perform escape strerror exchange self body content_type timeout).1.m_curl.httpheader
      = (perform_accept self content_type).m_header_params.map
          (fun it => c_str (header_line it)) := by
  rw [perform_fst]
  exact perform_setup_httpheader _ _ _ _ _

theorem count_accept_line (m : http_params) (T : Str) (hwf : map_wf m)
    (hT : Char.ofNat 0 ∉ T)
    (hkeys : ∀ e ∈ m, e.1 ≠ "Accept".toList → ':' ∉ e.1) :
    ((map_assign "Accept".toList T m).map (fun it => c_str (header_line it))).count
      ("Accept: ".toList ++ T) = 1 := by
  have hline : c_str (header_line ("Accept".toList, T)) = "Accept: ".toList ++ T := by
    have : header_line ("Accept".toList, T) = "Accept: ".toList ++ T := by
      simp [header_line]
    rw [this, c_str_append_of_no_nul _ _ (by decide), c_str_of_no_nul _ hT]
  have hfilter := map_assign_filter_key "Accept".toList T m hwf
  rw [List.count, List.countP_map, List.countP_eq_length_filter]
  have hcongr : (map_assign "Accept".toList T m).filter
        ((fun x => x == "Accept: ".toList ++ T) ∘ fun it => c_str (header_line it))
      = (map_assign "Accept".toList T m).filter (fun e => decide (e.1 = "Accept".toList)) := by
    apply List.filter_congr
    intro e he
    by_cases hk : e.1 = "Accept".toList
    · have hmem : e ∈ (map_assign "Accept".toList T m).filter
          (fun e => decide (e.1 = "Accept".toList)) := by
        rw [List.mem_filter]
        exact ⟨he, by simpa using hk⟩
      rw [hfilter] at hmem
      simp only [List.mem_singleton] at hmem
      subst hmem
      show (c_str (header_line ("Accept".toList, T)) == "Accept: ".toList ++ T)
        = decide ("Accept".toList = "Accept".toList)
      rw [hline, decide_eq_true rfl]
      exact beq_self_eq_true _
    · have hm : e ∈ m := by
        rcases mem_map_assign _ _ _ _ he with h | h
        · rw [h] at hk
          exact absurd rfl hk
        · exact h
      have hcolon := hkeys e hm hk
      have hne : c_str (header_line e) ≠ "Accept: ".toList ++ T := by
        intro heq
        have h1 : header_line e = e.1 ++ ':' :: (' ' :: e.2) := by
          simp [header_line]
        have h2 : "Accept: ".toList ++ T = "Accept".toList ++ ':' :: (' ' :: T) := by
          simp
        rw [h1, h2] at heq
        exact hk (key_of_c_str_line _ _ _ _ hcolon (by decide) heq)
      show (c_str (header_line e) == "Accept: ".toList ++ T)
        = decide (e.1 = "Accept".toList)
      rw [decide_eq_false hk]
      exact beq_false_of_ne hne
  rw [hcongr, hfilter]
  rfl

/-- C8, as the code has it: for a `PUT` request, a body `B` and a content
type `T`, both not empty, `perform` (a) stores `T` under the header `Accept`
and hands the transport one line per header of the request after that, the C
string of `key: value`, in key order, among them the line of `Accept` and the
line of every other header; the headers being in key order, `Accept` has
exactly one entry, and when moreover `T` holds no NUL and no other header key
contains a `':'`, the line `"Accept: " ++ T` occurs exactly once in the list;
(b) seeds the upload cursor with `B` and `|B|` and attaches the read callback,
so that for every chunk size `C > 0` the bytes delivered by successive
invocations of `read_callback`, concatenated in order, are `B`. -/
theorem perform_put_accept_and_upload (escape : Str → Str) (strerror : Nat → Str)
    (exchange : curl_handle → curl_transfer) (self : http_request) (B T : Str)
    (timeout : Int)
    (hm : self.m_method = HTTP_METHOD_PUT) (hB : B ≠ []) (hT : T ≠ []) :
    (perform escape strerror exchange self (some B) (some T) timeout).1.m_header_params
      = map_assign "Accept".toList T self.m_header_params ∧
    map_find "Accept".toList
      (perform escape strerror exchange self (some B) (some T) timeout).1.m_header_params
      = some T ∧
    (∀ k, k ≠ "Accept".toList →
      map_find k
        (perform escape strerror exchange self (some B) (some T) timeout).1.m_header_params
        = map_find k self.m_header_params) ∧
    (perform escape strerror exchange self (some B) (some T) timeout).1.m_curl.httpheader
      = (map_assign "Accept".toList T self.m_header_params).map
          (fun it => c_str (header_line it)) ∧
    c_str ("Accept: ".toList ++ T)
      ∈ (perform escape strerror exchange self (some B) (some T)
          timeout).1.m_curl.httpheader ∧
    (∀ e ∈ self.m_header_params, e.1 ≠ "Accept".toList →
      c_str (header_line e)
        ∈ (perform escape strerror exchange self (some B) (some T)
            timeout).1.m_curl.httpheader) ∧
    (map_wf self.m_header_params →
      (map_assign "Accept".toList T self.m_header_params).filter
          (fun e => decide (e.1 = "Accept".toList))
        = [("Accept".toList, T)]) ∧
    (map_wf self.m_header_params → Char.ofNat 0 ∉ T →
      (∀ e ∈ self.m_header_params, e.1 ≠ "Accept".toList → ':' ∉ e.1) →
      (perform escape strerror exchange self (some B) (some T)
          timeout).1.m_curl.httpheader.count ("Accept: ".toList ++ T) = 1) ∧
    (perform_setup escape self (some B) (some T) timeout).1.m_upload_obj
      = { data := B, length := B.length } ∧
    (perform escape strerror exchange self (some B) (some T) timeout).1.m_upload_obj
      = (run_events (perform_setup escape self (some B) (some T) timeout).2
          (exchange (perform_setup escape self (some B) (some T) timeout).2).events
          ({}, { data := B, length := B.length })).2 ∧
    (perform escape strerror exchange self (some B) (some T) timeout).1.m_curl.upload = true ∧
    (perform escape strerror exchange self (some B) (some T)
      timeout).1.m_curl.readfunction = true ∧
    (∀ size nmemb n, 0 < size_t (size * nmemb) → B.length ≤ n →
      ((read_repeat size nmemb n { data := B, length := B.length }).1.map Prod.snd).flatten
        = B ∧
      ((read_repeat size nmemb n { data := B, length := B.length }).1.map Prod.fst).sum
        = B.length) := by
  have hparams := perform_m_header_params escape strerror exchange self (some B) (some T) timeout
  rw [perform_accept_some _ _ hT] at hparams
  have hlist := perform_httpheader escape strerror exchange self (some B) (some T) timeout
  rw [perform_accept_some _ _ hT] at hlist
  obtain ⟨hu, hup, hrd⟩ := perform_setup_put escape self B (some T) timeout hm hB
  refine ⟨hparams, ?_, ?_, hlist, ?_, ?_, ?_, ?_, hu, ?_, ?_, ?_, ?_⟩
  · rw [hparams]
    exact map_find_assign_self _ _ _
  · intro k hk
    rw [hparams]
    exact map_find_assign_other _ _ _ _ hk
  · rw [hlist]
    have hmem := mem_map_assign_self "Accept".toList T self.m_header_params
    have := List.mem_map_of_mem (fun it => c_str (header_line it)) hmem
    have hl : header_line ("Accept".toList, T) = "Accept: ".toList ++ T := by
      simp [header_line]
    have this' : c_str (header_line ("Accept".toList, T))
        ∈ List.map (fun it => c_str (header_line it))
            (map_assign "Accept".toList T self.m_header_params) := this
    rw [hl] at this'
    exact this'
  · intro e he hk
    rw [hlist]
    exact List.mem_map_of_mem _ (mem_map_assign_of_mem _ _ _ _ he hk)
  · intro hwf
    exact map_assign_filter_key _ _ _ hwf
  · intro hwf hnul hkeys
    rw [hlist]
    exact count_accept_line _ _ hwf hnul hkeys
  · rw [perform_fst, hu]
  · rw [perform_fst]
    exact hup
  · rw [perform_fst]
    exact hrd
  · intro size nmemb n hC hn
    have hle : B.length ≤ n * size_t (size * nmemb) :=
      Nat.le_trans hn (Nat.le_mul_of_pos_right n hC)
    constructor
    · rw [(read_repeat_data size nmemb n { data := B, length := B.length } rfl).1]
      exact List.take_of_length_le hle
    · rw [(read_repeat_sizes size nmemb n { data := B, length := B.length }).1]
      exact Nat.min_eq_left hle

set_option maxRecDepth 100000 in
/-- A `PUT` of the body `"hello"` with the content type `"text/plain"` on the
request with the headers `Accept: old` and `X-Id: 7`: the header list is
`Accept: text/plain`, `X-Id: 7`, the line of `Accept` occurs once, and the
read callback, asked four times for at most two bytes, delivers `he`, `ll`,
`o` and nothing, five bytes in all. -/
theorem perform_put_accept_and_upload_witness :
    put_request_with_headers.m_method = HTTP_METHOD_PUT ∧
    "hello".toList ≠ [] ∧ "text/plain".toList ≠ [] ∧
    put_request_with_headers.m_header_params
      = [("Accept".toList, "old".toList), ("X-Id".toList, "7".toList)] ∧
    map_wf put_request_with_headers.m_header_params ∧
    (perform percent_encode no_message reading_exchange put_request_with_headers
        (some "hello".toList) (some "text/plain".toList) 0).1.m_header_params
      = [("Accept".toList, "text/plain".toList), ("X-Id".toList, "7".toList)] ∧
    (perform percent_encode no_message reading_exchange put_request_with_headers
        (some "hello".toList) (some "text/plain".toList) 0).1.m_curl.httpheader
      = ["Accept: text/plain".toList, "X-Id: 7".toList] ∧
    (perform percent_encode no_message reading_exchange put_request_with_headers
        (some "hello".toList) (some "text/plain".toList)
        0).1.m_curl.httpheader.count ("Accept: ".toList ++ "text/plain".toList) = 1 ∧
    (perform_setup percent_encode put_request_with_headers
        (some "hello".toList) (some "text/plain".toList) 0).1.m_upload_obj
      = { data := "hello".toList, length := 5 } ∧
    (read_repeat 1 2 4 { data := "hello".toList, length := 5 }).1
      = [(2, "he".toList), (2, "ll".toList), (1, "o".toList), (0, [])] ∧
    (perform percent_encode no_message reading_exchange put_request_with_headers
        (some "hello".toList) (some "text/plain".toList) 0).1.m_upload_obj
      = { data := [], length := 0 } ∧
    (∀ size nmemb n, 0 < size_t (size * nmemb) → "hello".toList.length ≤ n →
      ((read_repeat size nmemb n
          { data := "hello".toList, length := "hello".toList.length }).1.map
            Prod.snd).flatten = "hello".toList ∧
      ((read_repeat size nmemb n
          { data := "hello".toList, length := "hello".toList.length }).1.map
            Prod.fst).sum = "hello".toList.length) := by
  have hwf : map_wf put_request_with_headers.m_header_params := by
    unfold map_wf
    decide
  have h := perform_put_accept_and_upload percent_encode no_message reading_exchange
    put_request_with_headers "hello".toList "text/plain".toList 0
    (by decide) (by decide) (by decide)
  obtain ⟨_, _, _, _, _, _, _, hcount, _, _, _, _, hstream⟩ := h
  exact ⟨by decide, by decide, by decide, by decide, hwf, by decide, by decide,
    hcount hwf (by decide) (by decide), by decide, by decide, by decide, hstream⟩

set_option maxRecDepth 100000 in
/-- C8 as stated fails, in two ways.  On the `PUT` request whose only header
has the key `Accept: x` and the value `y`, a call of `perform` with the body
`"hello"` and the content type `"x: y"` hands the transport a header list in
which the line `Accept: x: y` occurs twice.  On the `PUT` request without
headers, a call with the content type `a`, NUL, `b` hands over the single
line `Accept: a`, so that the line `"Accept: " ++ T` does not occur at all. -/
theorem perform_put_accept_line_twice :
    put_request_with_colon_key.m_method = HTTP_METHOD_PUT ∧
    map_wf put_request_with_colon_key.m_header_params ∧
    (perform percent_encode no_message reading_exchange put_request_with_colon_key
        (some "hello".toList) (some "x: y".toList) 0).1.m_header_params
      = [("Accept".toList, "x: y".toList), ("Accept: x".toList, "y".toList)] ∧
    (perform percent_encode no_message reading_exchange put_request_with_colon_key
        (some "hello".toList) (some "x: y".toList) 0).1.m_curl.httpheader
      = ["Accept: x: y".toList, "Accept: x: y".toList] ∧
    (perform percent_encode no_message reading_exchange put_request_with_colon_key
        (some "hello".toList) (some "x: y".toList) 0).1.m_curl.httpheader.count
      ("Accept: ".toList ++ "x: y".toList) = 2 ∧
    put_request.m_method = HTTP_METHOD_PUT ∧
    content_type_with_nul ≠ [] ∧
    (perform percent_encode no_message reading_exchange put_request
        (some "hello".toList) (some content_type_with_nul) 0).1.m_header_params
      = [("Accept".toList, content_type_with_nul)] ∧
    (perform percent_encode no_message reading_exchange put_request
        (some "hello".toList) (some content_type_with_nul) 0).1.m_curl.httpheader
      = ["Accept: a".toList] ∧
    (perform percent_encode no_message reading_exchange put_request
        (some "hello".toList) (some content_type_with_nul) 0).1.m_curl.httpheader.count
      ("Accept: ".toList ++ content_type_with_nul) = 0 := by
  refine ⟨by decide, ?_, by decide, by decide, by decide, by decide, by decide, by decide,
    by decide, by decide⟩
  unfold map_wf
  decide

/-! ## The trace dump -/

theorem size_t_of_lt (n : Nat) (h : n < 2 ^ 64) : size_t n = n :=
  Nat.mod_eq_of_lt h

theorem getD_drop (ptr : List Nat) (k j : Nat) :
    (ptr.drop k).getD j 0 = ptr.getD (k + j) 0 := by
  simp only [List.getD_eq_getElem?_getD, List.getElem?_drop]

theorem dump_row_succ (ptr : List Nat) (i n c : Nat) (hb : i + c + 2 < 2 ^ 64) :
    dump_row ptr ptr.length i (n + 1) c =
      if c < width ∧ i + c < ptr.length then
        if i + c + 1 < ptr.length ∧ ptr.getD (i + c) 0 = 0x0D
            ∧ ptr.getD (i + c + 1) 0 = 0x0A then
          ([], size_t (i + size_t (c + 2 + (2 ^ 64 - width))))
        else if i + c + 2 < ptr.length ∧ ptr.getD (i + c + 1) 0 = 0x0D
            ∧ ptr.getD (i + c + 2) 0 = 0x0A then
          ([render_byte (ptr.getD (i + c) 0)], size_t (i + size_t (c + 3 + (2 ^ 64 - width))))
        else
          (render_byte (ptr.getD (i + c) 0) :: (dump_row ptr ptr.length i n (c + 1)).1,
            (dump_row ptr ptr.length i n (c + 1)).2)
      else ([], i) := by
  have h0 : size_t (i + c) = i + c := size_t_of_lt _ (by omega)
  have h1 : size_t (i + c + 1) = i + c + 1 := size_t_of_lt _ (by omega)
  have h2 : size_t (i + c + 2) = i + c + 2 := size_t_of_lt _ hb
  simp only [dump_row, h0, h1, h2, nohex, true_and]

theorem row_chars_drop_succ (ptr : List Nat) (k n : Nat) :
    row_chars (n + 1) (ptr.drop k) =
      if k < ptr.length then
        if k + 1 < ptr.length ∧ ptr.getD k 0 = 0x0D ∧ ptr.getD (k + 1) 0 = 0x0A then
          ([], ptr.drop (k + 2))
        else if k + 2 < ptr.length ∧ ptr.getD (k + 1) 0 = 0x0D
            ∧ ptr.getD (k + 2) 0 = 0x0A then
          ([render_byte (ptr.getD k 0)], ptr.drop (k + 3))
        else
          (render_byte (ptr.getD k 0) :: (row_chars n (ptr.drop (k + 1))).1,
            (row_chars n (ptr.drop (k + 1))).2)
      else ([], []) := by
  have e0 : 0 < (ptr.drop k).length ↔ k < ptr.length := by
    rw [List.length_drop]; omega
  have e1 : 1 < (ptr.drop k).length ↔ k + 1 < ptr.length := by
    rw [List.length_drop]; omega
  have e2 : 2 < (ptr.drop k).length ↔ k + 2 < ptr.length := by
    rw [List.length_drop]; omega
  simp only [row_chars, e0, e1, e2, getD_drop, List.drop_drop, Nat.add_zero]

theorem next_row (i c k : Nat) (hk : c + k ≤ width + 2) (hb : i + c + k < 2 ^ 64) :
    size_t (size_t (i + size_t (c + k + (2 ^ 64 - width))) + width) = i + c + k := by
  simp only [size_t, width] at *
  omega

theorem dump_row_eq (ptr : List Nat) (i : Nat) (hsize : ptr.length + width < 2 ^ 64) :
    ∀ n c, c + n = width → i + c ≤ ptr.length →
      (dump_row ptr ptr.length i n c).1 = (row_chars n (ptr.drop (i + c))).1 ∧
      ptr.drop (size_t ((dump_row ptr ptr.length i n c).2 + width))
        = (row_chars n (ptr.drop (i + c))).2 ∧
      i < size_t ((dump_row ptr ptr.length i n c).2 + width) := by
  have hw : width = 4095 := rfl
  intro n
  induction n with
  | zero =>
    intro c hc hle
    have h0 : size_t (i + width) = i + width := size_t_of_lt _ (by omega)
    simp only [Nat.add_zero] at hc
    simp only [dump_row, row_chars, h0, hc]
    exact ⟨by trivial, by trivial, by omega⟩
  | succ n ih =>
    intro c hc hle
    have hcw : c < width := by omega
    rw [dump_row_succ ptr i n c (by omega), row_chars_drop_succ]
    by_cases h1 : i + c < ptr.length
    · rw [if_pos ⟨hcw, h1⟩, if_pos h1]
      by_cases h2 : i + c + 1 < ptr.length ∧ ptr.getD (i + c) 0 = 0x0D
          ∧ ptr.getD (i + c + 1) 0 = 0x0A
      · rw [if_pos h2, if_pos h2]
        have hn := next_row i c 2 (by omega) (by omega)
        simp only [hn]
        exact ⟨by trivial, by trivial, by omega⟩
      · rw [if_neg h2, if_neg h2]
        by_cases h3 : i + c + 2 < ptr.length ∧ ptr.getD (i + c + 1) 0 = 0x0D
            ∧ ptr.getD (i + c + 2) 0 = 0x0A
        · rw [if_pos h3, if_pos h3]
          have hn := next_row i c 3 (by omega) (by omega)
          simp only [hn]
          exact ⟨by trivial, by trivial, by omega⟩
        · rw [if_neg h3, if_neg h3]
          obtain ⟨ih₁, ih₂, ih₃⟩ := ih (c + 1) (by omega) (by omega)
          simp only [Nat.add_assoc] at ih₁ ih₂ ⊢
          exact ⟨by rw [ih₁], ih₂, ih₃⟩
    · rw [if_neg (fun h => h1 h.2), if_neg h1]
      have h0 : size_t (i + width) = i + width := size_t_of_lt _ (by omega)
      simp only [h0]
      exact ⟨by trivial, List.drop_of_length_le (by omega), by omega⟩

theorem dump_rows_eq (ptr : List Nat) (hsize : ptr.length + width < 2 ^ 64) :
    ∀ fuel i, ptr.length - i < fuel →
      dump_rows ptr ptr.length fuel i = some (rows_text (dump_lines fuel (ptr.drop i))) := by
  intro fuel
  induction fuel with
  | zero => intro i h; omega
  | succ fuel ih =>
    intro i hfuel
    by_cases hi : i < ptr.length
    · obtain ⟨h₁, h₂, h₃⟩ := dump_row_eq ptr i hsize width 0 (by omega) (by omega)
      simp only [Nat.add_zero] at h₁ h₂
      have hne : ptr.drop i ≠ [] := by
        intro h
        have := congrArg List.length h
        simp only [List.length_drop, List.length_nil] at this
        omega
      simp only [dump_rows, dump_lines, if_pos hi, if_neg hne]
      rw [ih _ (by omega), h₂, h₁]
      simp [rows_text]
    · have he : ptr.drop i = [] := List.drop_of_length_le (by omega)
      simp only [dump_rows, dump_lines, if_neg hi, he, if_true]
      rfl

theorem row_chars_nil (n : Nat) : row_chars n [] = ([], []) := by
  cases n <;> simp [row_chars]

theorem row_chars_cons (n : Nat) (b : Nat) (rest : List Nat) :
    row_chars (n + 1) (b :: rest) =
      if b = 0x0D ∧ rest.head? = some 0x0A then ([], rest.tail)
      else if rest.head? = some 0x0D ∧ rest.tail.head? = some 0x0A then
        ([render_byte b], rest.tail.tail)
      else (render_byte b :: (row_chars n rest).1, (row_chars n rest).2) := by
  match rest with
  | [] => simp [row_chars, row_chars_nil]
  | [b'] =>
    simp only [row_chars]
    simp
  | b' :: b'' :: rest' =>
    simp only [row_chars]
    simp

theorem strip_crlf_cons (b : Nat) (rest : List Nat) :
    strip_crlf (b :: rest) =
      if b = 0x0D ∧ rest.head? = some 0x0A then strip_crlf rest.tail
      else b :: strip_crlf rest := by
  match rest with
  | [] => simp [strip_crlf]
  | b' :: rest' => simp [strip_crlf]

theorem row_chars_length_le (n : Nat) (q : List Nat) :
    (row_chars n q).2.length ≤ q.length := by
  induction n generalizing q with
  | zero => simp [row_chars]
  | succ n ih =>
    cases q with
    | nil => simp [row_chars_nil]
    | cons b rest =>
      rw [row_chars_cons]
      split
      · simp only [List.length_tail, List.length_cons]
        omega
      · split
        · simp only [List.length_tail, List.length_cons]
          omega
        · have := ih rest
          simp only [List.length_cons]
          omega

theorem row_chars_length_lt (n : Nat) (q : List Nat) (hn : 0 < n) (hq : q ≠ []) :
    (row_chars n q).2.length < q.length := by
  cases n with
  | zero => omega
  | succ n =>
    cases q with
    | nil => exact absurd rfl hq
    | cons b rest =>
      rw [row_chars_cons]
      split
      · simp only [List.length_tail, List.length_cons]
        omega
      · split
        · simp only [List.length_tail, List.length_cons]
          omega
        · have := row_chars_length_le n rest
          simp only [List.length_cons]
          omega

theorem dump_lines_fuel (f f' : Nat) (q : List Nat) (h : q.length < f) (h' : q.length < f') :
    dump_lines f q = dump_lines f' q := by
  induction f generalizing f' q with
  | zero => omega
  | succ f ih =>
    cases f' with
    | zero => omega
    | succ f' =>
      simp only [dump_lines]
      split
      · rfl
      · rename_i hq
        have hlt := row_chars_length_lt width q (by decide) hq
        rw [ih f' _ (by omega) (by omega)]

theorem row_chars_strip (n : Nat) (q : List Nat) :
    (row_chars n q).1 ++ (strip_crlf (row_chars n q).2).map render_byte
      = (strip_crlf q).map render_byte := by
  induction n generalizing q with
  | zero => simp [row_chars]
  | succ n ih =>
    cases q with
    | nil => simp [row_chars_nil]
    | cons b rest =>
      rw [row_chars_cons, strip_crlf_cons]
      by_cases h1 : b = 0x0D ∧ rest.head? = some 0x0A
      · rw [if_pos h1, if_pos h1]
        rfl
      · rw [if_neg h1, if_neg h1]
        by_cases h2 : rest.head? = some 0x0D ∧ rest.tail.head? = some 0x0A
        · rw [if_pos h2]
          match rest, h2 with
          | x :: y :: r, ⟨hx, hy⟩ =>
            simp only [List.head?_cons, Option.some.injEq, List.tail_cons] at hx hy
            subst hx hy
            simp [strip_crlf]
        · rw [if_neg h2]
          simp only [List.cons_append, List.map_cons, ih rest]

theorem dump_lines_strip (f : Nat) (q : List Nat) (h : q.length < f) :
    (dump_lines f q).flatten = (strip_crlf q).map render_byte := by
  induction f generalizing q with
  | zero => omega
  | succ f ih =>
    simp only [dump_lines]
    split
    · rename_i hq
      subst hq
      rfl
    · rename_i hq
      have hlt := row_chars_length_lt width q (by decide) hq
      rw [List.flatten_cons, ih _ (by omega), row_chars_strip]

theorem row_chars_before_crlf (a b : List Nat) (n : Nat)
    (ha : ¬ [0x0D, 0x0A] <:+: a) (hlen : a.length ≤ n) (hn : 0 < n) :
    row_chars n (a ++ 0x0D :: 0x0A :: b) = (a.map render_byte, b) := by
  induction a generalizing n with
  | nil =>
    cases n with
    | zero => omega
    | succ n =>
      rw [List.nil_append, row_chars_cons]
      simp
  | cons x a' ih =>
    cases n with
    | zero => omega
    | succ n =>
      have ha' : ¬ [0x0D, 0x0A] <:+: a' := fun h => ha (List.infix_cons h)
      rw [List.cons_append, row_chars_cons]
      have h1 : ¬ (x = 0x0D ∧ (a' ++ 0x0D :: 0x0A :: b).head? = some 0x0A) := by
        rintro ⟨hx, hh⟩
        cases a' with
        | nil => simp at hh
        | cons y r =>
          simp only [List.cons_append, List.head?_cons, Option.some.injEq] at hh
          subst hx hh
          exact ha (List.IsPrefix.isInfix ⟨r, rfl⟩)
      rw [if_neg h1]
      cases a' with
      | nil => simp
      | cons y r =>
        have h2 : ¬ ((y :: r ++ 0x0D :: 0x0A :: b).head? = some 0x0D
            ∧ (y :: r ++ 0x0D :: 0x0A :: b).tail.head? = some 0x0A) := by
          rintro ⟨hy, hz⟩
          cases r with
          | nil => simp at hz
          | cons z r' =>
            simp only [List.cons_append, List.head?_cons, Option.some.injEq,
              List.tail_cons] at hy hz
            subst hy hz
            exact ha' (List.IsPrefix.isInfix ⟨r', rfl⟩)
        rw [if_neg h2]
        have hlen' : (y :: r).length ≤ n := by
          simp only [List.length_cons] at hlen ⊢
          omega
        have hn' : 0 < n := by
          simp only [List.length_cons] at hlen'
          omega
        rw [ih n ha' hlen' hn']
        rfl

theorem dump_lines_before_crlf (a b : List Nat) (f : Nat)
    (ha : ¬ [0x0D, 0x0A] <:+: a) (hlen : a.length ≤ width)
    (hf : (a ++ 0x0D :: 0x0A :: b).length < f) :
    dump_lines f (a ++ 0x0D :: 0x0A :: b) = a.map render_byte :: dump_lines f b := by
  cases f with
  | zero => omega
  | succ f =>
    have hne : a ++ 0x0D :: 0x0A :: b ≠ [] := by simp
    have hb : b.length < f := by
      simp only [List.length_append, List.length_cons] at hf
      omega
    rw [dump_lines, if_neg hne, row_chars_before_crlf a b width ha hlen (by decide)]
    rw [dump_lines_fuel f (f + 1) b hb (by omega)]

theorem render_byte_range (b : Nat) :
    render_byte b = '.' ∨ (0x20 ≤ (render_byte b).toNat ∧ (render_byte b).toNat < 0x80) := by
  simp only [render_byte]
  split
  · rename_i h
    right
    have hv : b.isValidChar := Or.inl (by omega)
    have : (Char.ofNat b).toNat = b := by
      simp only [Char.ofNat, hv, dite_true, Char.ofNatAux, Char.toNat]
      show (BitVec.ofNatLt b _).toNat = b
      simp
    rw [this]
    exact h
  · exact Or.inl rfl

/-- C10, as the code has it: the text `curl_dump` hands to the sink is the
summary line followed by rows, each three blanks, the characters of the row
and a line end.  The characters of the rows, taken together, are the payload
bytes outside CR-LF pairs, each exactly once and in order, written as itself
when `0x20 ≤ byte < 0x80` (the byte `0x7F` included) and as `'.'` otherwise,
so that nothing but a dot or a character in `0x20..0x7F` is written for the
payload.  A CR-LF pair is written as neither byte and ends the row: when the
payload is `a`, CR, LF, `b`, with no CR-LF pair in `a` and `a` no longer than
the width, the first row is `a` rendered and the remaining rows are the dump
of `b`. -/
theorem curl_dump_renders (text : Str) (ptr : List Nat) (fuel : Nat)
    (hsize : ptr.length + width < 2 ^ 64) (hfuel : ptr.length < fuel) :
    ∃ lines : List Str,
      curl_dump text ptr ptr.length fuel
        = some (dump_summary text ptr.length ++ rows_text lines) ∧
      lines.flatten = (strip_crlf ptr).map render_byte ∧
      (∀ ch ∈ lines.flatten, ch = '.' ∨ (0x20 ≤ ch.toNat ∧ ch.toNat < 0x80)) ∧
      (∀ a b, ptr = a ++ 0x0D :: 0x0A :: b → ¬ [0x0D, 0x0A] <:+: a → a.length ≤ width →
        ∃ rest, lines = a.map render_byte :: rest ∧
          curl_dump text b b.length fuel
            = some (dump_summary text b.length ++ rows_text rest)) := by
  have hrows := dump_rows_eq ptr hsize fuel 0 (by omega)
  rw [List.drop_zero] at hrows
  have hflat := dump_lines_strip fuel ptr hfuel
  refine ⟨dump_lines fuel ptr, ?_, hflat, ?_, ?_⟩
  · simp only [curl_dump, hrows]
  · intro ch hch
    rw [hflat, List.mem_map] at hch
    obtain ⟨b, _, hb⟩ := hch
    rw [← hb]
    exact render_byte_range b
  · intro a b hptr ha hlen
    have hlenb : b.length < ptr.length := by
      rw [hptr]
      simp only [List.length_append, List.length_cons]
      omega
    refine ⟨dump_lines fuel b, ?_, ?_⟩
    · rw [hptr]
      exact dump_lines_before_crlf a b fuel ha hlen (by rw [← hptr]; exact hfuel)
    · have hrowsb := dump_rows_eq b (by omega) fuel 0 (by omega)
      rw [List.drop_zero] at hrowsb
      simp only [curl_dump, hrowsb]

set_option maxRecDepth 100000 in
/-- The payload `ab`, CR, LF, `0x7F`, `0x80`, LF: the rows are `ab` and the
byte `0x7F` followed by two dots. -/
theorem curl_dump_renders_witness :
    [0x61, 0x62, 0x0D, 0x0A, 0x7F, 0x80, 0x0A].length + width < 2 ^ 64 ∧
    [0x61, 0x62, 0x0D, 0x0A, 0x7F, 0x80, 0x0A].length < 8 ∧
    curl_dump "=> Send data".toList [0x61, 0x62, 0x0D, 0x0A, 0x7F, 0x80, 0x0A] 7 8
      = some ("=> Send data,          7 bytes (0x7)\n   ab\n   \x7f..\n".toList) ∧
    ∃ lines : List Str,
      curl_dump "=> Send data".toList [0x61, 0x62, 0x0D, 0x0A, 0x7F, 0x80, 0x0A]
          [0x61, 0x62, 0x0D, 0x0A, 0x7F, 0x80, 0x0A].length 8
        = some (dump_summary "=> Send data".toList
            [0x61, 0x62, 0x0D, 0x0A, 0x7F, 0x80, 0x0A].length ++ rows_text lines) ∧
      lines.flatten = (strip_crlf [0x61, 0x62, 0x0D, 0x0A, 0x7F, 0x80, 0x0A]).map render_byte ∧
      (∀ ch ∈ lines.flatten, ch = '.' ∨ (0x20 ≤ ch.toNat ∧ ch.toNat < 0x80)) ∧
      (∀ a b, [0x61, 0x62, 0x0D, 0x0A, 0x7F, 0x80, 0x0A] = a ++ 0x0D :: 0x0A :: b →
        ¬ [0x0D, 0x0A] <:+: a → a.length ≤ width →
        ∃ rest, lines = a.map render_byte :: rest ∧
          curl_dump "=> Send data".toList b b.length 8
            = some (dump_summary "=> Send data".toList b.length ++ rows_text rest)) :=
  ⟨by decide, by decide, by decide,
    curl_dump_renders "=> Send data".toList [0x61, 0x62, 0x0D, 0x0A, 0x7F, 0x80, 0x0A] 8
      (by decide) (by decide)⟩

set_option maxRecDepth 100000 in
/-- C10 as stated fails: for the payload of the single byte
`0x7F`, which is not a printable ASCII character, `curl_dump` writes the byte
itself and not a dot. -/
theorem curl_dump_writes_del :
    curl_dump "=> Send data".toList [0x7F] 1 2
      = some ("=> Send data,          1 bytes (0x1)\n   \x7f\n".toList) ∧
    curl_dump "=> Send data".toList [0x7F] 1 2
      ≠ some ("=> Send data,          1 bytes (0x1)\n   .\n".toList) ∧
    render_byte 0x7F = Char.ofNat 0x7F ∧
    ¬ (0x20 ≤ (render_byte 0x7F).toNat ∧ (render_byte 0x7F).toNat ≤ 0x7E) := by
  decide

end Restpp
